import Mathlib

/-!
Shallow embedding of the Stella Fuzzy Pattern Matcher (SFPM) C runtime:
the value / criteria / rule model (`src/criteria.c`, `src/rule.c`,
`src/fact_source.c`), the matcher (`src/matcher.c`), the tiered bytecode
dispatcher (`examples/interpreter_tiered.c`) and the snapshot engine
(`src/snapshot.c`), together with theorems settling the specification
claims about them.

Modelling conventions:
* C machine integers that the claims exercise only as ordered values
  (`int` fact values, priorities, operands) are embedded as `Int`;
  sizes and counters as `Nat`.  `float` / `double` values are embedded
  as `Rat`: the code only ever compares them with `<` and `>`, and the
  claims address the ordering, not rounding (NaN behaviour is explicitly
  unspecified in the spec).
* C strings are embedded as `String` where they are used as lookup keys
  and as `List Nat` (the bytes before the terminating NUL) where the
  code compares them with `strcmp`.
* Callback pointers (`sfpm_predicate_fn`, payloads, hook functions,
  opcode handlers) are embedded as Lean functions; hook functions are
  reduced to the pair (identity, returned Bool), which is all a single
  firing can observe of them.
* Files are byte lists (`List Nat`, each entry `< 256`); `fread` of `n`
  bytes fails exactly when fewer than `n` bytes remain.
* Null pointers of optional C fields become `Option`; the model keeps
  no null entries inside rule arrays or criteria arrays (the C code
  skips them).
-/

/-! ## Values and typed comparison (`src/criteria.c`, `src/fact_source.c`) -/

/-- Tag of an `sfpm_value_t` (`sfpm_type_t` in `fact_source.h`). -/
inductive SfpmType where
  | tInt
  | tFloat
  | tDouble
  | tString
  | tBool
deriving DecidableEq, Repr

/-- An `sfpm_value_t`: tagged union over the five primitive shapes.
`float`/`double` payloads are embedded as `Rat`, strings as their byte
lists (no interior NUL). -/
inductive SfpmValue where
  | intVal (v : Int)
  | floatVal (v : Rat)
  | doubleVal (v : Rat)
  | stringVal (s : List Nat)
  | boolVal (b : Bool)
deriving DecidableEq, Repr

/-- The tag carried by a value (`value.type` in C). -/
def sfpm_value_type : SfpmValue → SfpmType
  | .intVal _ => .tInt
  | .floatVal _ => .tFloat
  | .doubleVal _ => .tDouble
  | .stringVal _ => .tString
  | .boolVal _ => .tBool

/-- `sfpm_operator_t` from `criteria.h`. -/
inductive SfpmOperator where
  | equal
  | notEqual
  | greaterThan
  | lessThan
  | greaterThanOrEqual
  | lessThanOrEqual
  | predicate
deriving DecidableEq, Repr

/-- `compare_int` from `criteria.c`: three-way compare of two C ints. -/
def compare_int (a b : Int) : Int :=
  if a < b then -1 else if a > b then 1 else 0

/-- `compare_float` from `criteria.c` (numeric payloads embedded as `Rat`). -/
def compare_float (a b : Rat) : Int :=
  if a < b then -1 else if a > b then 1 else 0

/-- `compare_double` from `criteria.c` (numeric payloads embedded as `Rat`). -/
def compare_double (a b : Rat) : Int :=
  if a < b then -1 else if a > b then 1 else 0

/-- `compare_string` from `criteria.c` delegates to `strcmp`; this is
`strcmp` on the byte lists before the terminating NUL, normalised to
`-1 / 0 / 1` (only the sign of `strcmp` is specified and only the sign
is consumed). A missing byte means the terminating NUL was reached, and
NUL compares below every string byte. -/
def compare_string : List Nat → List Nat → Int
  | [], [] => 0
  | [], _ :: _ => -1
  | _ :: _, [] => 1
  | a :: as, b :: bs => if a < b then -1 else if b < a then 1 else compare_string as bs

/-- `compare_bool` from `criteria.c`: `false < true`. -/
def compare_bool (a b : Bool) : Int :=
  if a = b then 0 else if a then 1 else -1

/-- Second `switch` of `evaluate_comparison` in `criteria.c`: map the
three-way compare result through the operator.  The `default` branch
(reached for `SFPM_OP_PREDICATE`) returns false. -/
def sfpm_apply_operator (op : SfpmOperator) (cmp : Int) : Bool :=
  match op with
  | .equal => cmp = 0
  | .notEqual => cmp ≠ 0
  | .greaterThan => cmp > 0
  | .lessThan => cmp < 0
  | .greaterThanOrEqual => cmp ≥ 0
  | .lessThanOrEqual => cmp ≤ 0
  | .predicate => false

/-- `evaluate_comparison` from `criteria.c`: a tag mismatch is a miss
(false); otherwise the tag-directed three-way compare is mapped through
the operator.  The match on the value pair fuses the C tag test
(`actual->type != expected->type`) with the first `switch` on
`actual->type`. -/
def evaluate_comparison (actual expected : SfpmValue) (op : SfpmOperator) : Bool :=
  match actual, expected with
  | .intVal a, .intVal b => sfpm_apply_operator op (compare_int a b)
  | .floatVal a, .floatVal b => sfpm_apply_operator op (compare_float a b)
  | .doubleVal a, .doubleVal b => sfpm_apply_operator op (compare_double a b)
  | .stringVal a, .stringVal b => sfpm_apply_operator op (compare_string a b)
  | .boolVal a, .boolVal b => sfpm_apply_operator op (compare_bool a b)
  | _, _ => false

/-- Abstract fact source: `sfpm_fact_source_try_get`.  `none` models a
lookup miss (`try_get` returning false). -/
def FactSource : Type := String → Option SfpmValue

/-- The dictionary fact source lookup `dict_try_get_fact` from
`fact_source.c`: linear scan, first key equal under `strcmp` wins. -/
def dict_try_get (entries : List (String × SfpmValue)) (fact_name : String) : Option SfpmValue :=
  match entries with
  | [] => none
  | (k, v) :: rest => if k = fact_name then some v else dict_try_get rest fact_name

/-- An `sfpm_criteria_t` (`struct sfpm_criteria` in `criteria.c`).
`predicate` folds the C function pointer and its `user_data` into one
Lean function; `none` models a NULL predicate pointer.  The debug name
plays no role in evaluation and is omitted. -/
structure Criteria where
  fact_name : String
  op : SfpmOperator
  expected_value : SfpmValue
  predicate : Option (SfpmValue → Bool)

/-- `sfpm_criteria_evaluate` from `criteria.c`: look the fact up; on a
miss return false; for `SFPM_OP_PREDICATE` invoke the predicate on the
retrieved value (NULL predicate: false); otherwise run the comparison.
Note the code performs no tag test before invoking a predicate. -/
def sfpm_criteria_evaluate (c : Criteria) (facts : FactSource) : Bool :=
  match facts c.fact_name with
  | none => false
  | some actual =>
    if c.op = .predicate then
      match c.predicate with
      | none => false
      | some p => p actual
    else
      evaluate_comparison actual c.expected_value c.op

/-! ## Rules, hook chains, payload execution (`src/rule.c`) -/

/-- A hook chain node, reduced to what one firing observes: an identity
for the call trace and the Bool the hook returns on this firing. -/
structure Hook where
  id : Nat
  ret : Bool
deriving DecidableEq, Repr

/-- An `sfpm_rule_t` (`struct sfpm_rule` in `rule.c`).  The payload
carries an arbitrary identity type `π` (`payload` plus
`payload_user_data` in C); `none` models a NULL payload pointer.  The
display name plays no role in the claims and is omitted. -/
structure Rule (π : Type) where
  criterias : List Criteria
  payload : Option π
  priority : Int
  before_hook_chain : List Hook
  middleware_hook_chain : List Hook
  after_hook_chain : List Hook

/-- `sfpm_eval_result_t`. -/
structure EvalResult where
  matched : Bool
  criteria_count : Nat
deriving DecidableEq, Repr

/-- The criteria loop inside `sfpm_rule_evaluate`: short-circuit
conjunction over the criteria in order. -/
def eval_criteria_list (facts : FactSource) : List Criteria → Bool
  | [] => true
  | c :: rest =>
    if sfpm_criteria_evaluate c facts then eval_criteria_list facts rest else false

/-- `sfpm_rule_evaluate` from `rule.c`: zero criteria match vacuously
with count 0; otherwise all criteria must pass, yielding
`{true, criteria_count}`, and any failure yields `{false, 0}`. -/
def sfpm_rule_evaluate (r : Rule π) (facts : FactSource) : EvalResult :=
  if r.criterias.length = 0 then ⟨true, 0⟩
  else if eval_criteria_list facts r.criterias then ⟨true, r.criterias.length⟩
  else ⟨false, 0⟩

/-- `sfpm_rule_get_criteria_count`. -/
def sfpm_rule_get_criteria_count (r : Rule π) : Nat := r.criterias.length

/-- `sfpm_rule_get_priority`. -/
def sfpm_rule_get_priority (r : Rule π) : Int := r.priority

/-- One observable event of a rule firing: a hook call (identified by
the hook id) or the payload call. -/
inductive RuleEvent (π : Type) where
  | hookCall (id : Nat)
  | payloadCall (p : π)
deriving DecidableEq, Repr

/-- One abortable hook chain walk (the `while` loops over the before and
middleware chains in `sfpm_rule_execute_payload`): returns the ids
called in order — stopping with the first hook that returns false — and
whether the walk ran to completion. -/
def run_abort_chain : List Hook → List Nat × Bool
  | [] => ([], true)
  | h :: rest =>
    if h.ret then
      let r := run_abort_chain rest
      (h.id :: r.1, r.2)
    else ([h.id], false)

/-- `sfpm_rule_execute_payload` from `rule.c`, as the list of observable
calls of one firing.  The C function returns immediately when the rule
or its payload is NULL; then the before chain runs (abort on false),
then the middleware chain (abort on false), then the payload, then the
entire after chain with return values ignored. -/
def sfpm_rule_execute_payload (r : Rule π) : List (RuleEvent π) :=
  match r.payload with
  | none => []
  | some p =>
    let b := run_abort_chain r.before_hook_chain
    if b.2 then
      let m := run_abort_chain r.middleware_hook_chain
      if m.2 then
        b.1.map RuleEvent.hookCall ++ m.1.map RuleEvent.hookCall
          ++ [RuleEvent.payloadCall p]
          ++ r.after_hook_chain.map (fun h => RuleEvent.hookCall h.id)
      else
        b.1.map RuleEvent.hookCall ++ m.1.map RuleEvent.hookCall
    else
      b.1.map RuleEvent.hookCall

/-! ## Matcher (`src/matcher.c`) -/

/-- `sfpm_optimize_rules`: sort the rule array by descending criteria
count.  The C code uses `qsort`, whose result order among equal keys is
unspecified; the model fixes one such order via `mergeSort`.  Every
theorem about the optimized path depends only on the two properties the
C sort also guarantees: the output is a permutation of the input and is
sorted by descending criteria count. -/
def sfpm_optimize_rules (rules : List (Rule π)) : List (Rule π) :=
  rules.mergeSort (fun a b => sfpm_rule_get_criteria_count b ≤ sfpm_rule_get_criteria_count a)

/-- The scan loop of `sfpm_match`: walk the rules accumulating
`best_score` and the list of rules tied at `best_score`
(`matched_rules` in C).  After each rule, with `optimize` set, the loop
breaks as soon as the rule criteria count drops below the current best
score. -/
def sfpm_match_loop (optimize : Bool) (facts : FactSource) :
    List (Rule π) → Nat → List (Rule π) → Nat × List (Rule π)
  | [], best, acc => (best, acc)
  | r :: rest, best, acc =>
    let ev := sfpm_rule_evaluate r facts
    let st :=
      if ev.matched then
        if ev.criteria_count > best then (ev.criteria_count, [r])
        else if ev.criteria_count = best ∧ 0 < best then (best, acc ++ [r])
        else (best, acc)
      else (best, acc)
    if optimize ∧ sfpm_rule_get_criteria_count r < st.1 then st
    else sfpm_match_loop optimize facts rest st.1 st.2

/-- The selection tail of `sfpm_match`: no accepted rule is a silent
no-match; a single accepted rule fires; otherwise the accepted rules
are filtered to the highest priority and, if still tied, one is picked
by `rand() % priority_count` — modelled by the free index `k`. -/
def sfpm_match_select_from (acc : List (Rule π)) (k : Nat) : Option (Rule π) :=
  match acc with
  | [] => none
  | a :: rest =>
    if rest.length = 0 then some a
    else
      let hp := rest.foldl (fun m r => if sfpm_rule_get_priority r > m then sfpm_rule_get_priority r else m)
        (sfpm_rule_get_priority a)
      let cands := (a :: rest).filter (fun r => sfpm_rule_get_priority r = hp)
      if cands.length = 1 then cands.head?
      else cands.get? (k % cands.length)

/-- `sfpm_match` from `matcher.c`, as the rule it selects and fires
(`none` when no rule fires).  `k` stands for the process-wide `rand()`
draw used only on a residual priority tie. -/
def sfpm_match_fired (rules : List (Rule π)) (facts : FactSource) (optimize : Bool) (k : Nat) :
    Option (Rule π) :=
  let scanned := if optimize then sfpm_optimize_rules rules else rules
  let res := sfpm_match_loop optimize facts scanned 0 []
  sfpm_match_select_from res.2 k

/-- Variant of `sfpm_match` with the sort of the optimized path but with
the early-exit break disabled; used to state that the break never
changes which rule fires. -/
def sfpm_match_fired_no_early_exit (rules : List (Rule π)) (facts : FactSource) (k : Nat) :
    Option (Rule π) :=
  let scanned := sfpm_optimize_rules rules
  let res := sfpm_match_loop false facts scanned 0 []
  sfpm_match_select_from res.2 k

/-- Observable events of one `sfpm_match` call: the firing of the
selected rule, if any. -/
def sfpm_match_events (rules : List (Rule π)) (facts : FactSource) (optimize : Bool) (k : Nat) :
    List (RuleEvent π) :=
  match sfpm_match_fired rules facts optimize k with
  | none => []
  | some r => sfpm_rule_execute_payload r

/-! ## Tiered interpreter (`examples/interpreter_tiered.c`) -/

/-- `vm_t` from `interpreter_tiered.c` (the fixed `int stack[256]` with
its stack pointer is embedded as a list; overflow is not exercised by
the claims). -/
structure VMState where
  stack : List Int
  pc : Nat
  halted : Bool
  quiet : Bool

/-- An opcode handler `opcode_handler_fn`, as a state transformer on the
VM given the operand. -/
def OpcodeHandler : Type := VMState → Int → VMState

/-- `interpreter_mode_t`. -/
inductive TieredMode where
  | cached
  | uncached
deriving DecidableEq, Repr

/-- `tiered_interpreter_t`.  `rule_cache` records which direct-index
slots hold a rule; `handlers` and `operand_slots` are the
`opcode_context_t` table (`contexts[op].handler` / `contexts[op].operand`;
the `vm` member is the single VM threaded through execution);
`all_rules` is the flat fallback array, as the opcodes of its rules in
array order. -/
structure TieredState where
  mode : TieredMode
  cache_version : Nat
  rule_cache : Nat → Bool
  handlers : Nat → OpcodeHandler
  operand_slots : Nat → Int
  all_rules : List Nat
  cached_dispatches : Nat
  uncached_dispatches : Nat
  cache_invalidations : Nat

/-- The rule built by `create_opcode_rule` for opcode `op`: the single
criterion `opcode == op`, payload `execute_opcode_handler` over
`&contexts[op]` (identified by the slot index `op`), default priority,
no hooks. -/
def create_opcode_rule (op : Nat) : Rule Nat :=
  { criterias := [⟨"opcode", .equal, .intVal (Int.ofNat op), none⟩]
    payload := some op
    priority := 0
    before_hook_chain := []
    middleware_hook_chain := []
    after_hook_chain := [] }

/-- `tiered_enter_uncached_mode`: idempotent; on a real transition the
mode flips and `cache_invalidations` is incremented. -/
def tiered_enter_uncached_mode (s : TieredState) : TieredState :=
  if s.mode = .uncached then s
  else { s with mode := .uncached, cache_invalidations := s.cache_invalidations + 1 }

/-- `tiered_enter_cached_mode`: idempotent; on a real transition the
mode flips and `cache_version` is incremented. -/
def tiered_enter_cached_mode (s : TieredState) : TieredState :=
  if s.mode = .cached then s
  else { s with mode := .cached, cache_version := s.cache_version + 1 }

/-- `tiered_register_opcode`: store the handler in the opcode context,
install the rule in the direct-index slot, replace the old rule in the
flat array (the pointer scan finds the old rule exactly when the slot
was occupied, given the flat-array invariant) or append, then
invalidate the cache if the mode was cached. -/
def tiered_register_opcode (s : TieredState) (op : Nat) (h : OpcodeHandler) : TieredState :=
  let s1 : TieredState :=
    { s with
      handlers := fun x => if x = op then h else s.handlers x
      rule_cache := fun x => if x = op then true else s.rule_cache x
      all_rules := if s.rule_cache op then s.all_rules else s.all_rules ++ [op] }
  if s1.mode = .cached then tiered_enter_uncached_mode s1 else s1

/-- `tiered_unregister_opcode`: when the slot is occupied, remove the
rule from the flat array (first occurrence) and clear the slot; in
cached mode the cache is invalidated whether or not the slot was
occupied. -/
def tiered_unregister_opcode (s : TieredState) (op : Nat) : TieredState :=
  let s1 : TieredState :=
    if s.rule_cache op then
      { s with
        rule_cache := fun x => if x = op then false else s.rule_cache x
        all_rules := s.all_rules.erase op }
    else s
  if s1.mode = .cached then tiered_enter_uncached_mode s1 else s1

/-- `instruction_t`. -/
structure Instr where
  op : Nat
  operand : Int
deriving Inhabited

/-- Replay the observable events of a rule firing against the tiered
interpreter state: a payload call on context slot `i` runs
`contexts[i].handler(contexts[i].vm, contexts[i].operand)`
(`execute_opcode_handler`); hook calls do not touch the VM (the opcode
rules carry no hooks).  Returns the resulting VM and the dispatched
`(opcode slot, operand)` payload observations. -/
def apply_rule_events (s : TieredState) :
    List (RuleEvent Nat) → VMState → VMState × List (Nat × Int)
  | [], vm => (vm, [])
  | .hookCall _ :: rest, vm => apply_rule_events s rest vm
  | .payloadCall i :: rest, vm =>
    let vm1 := s.handlers i vm (s.operand_slots i)
    let r := apply_rule_events s rest vm1
    (r.1, (i, s.operand_slots i) :: r.2)

/-- `tiered_execute_instruction`.  Cached mode: direct-index the rule
cache; a NULL slot is a fatal interpreter error (`exit(1)`), modelled as
`none`.  Uncached mode: build the single-fact source
`{opcode: instr.op}` and run `sfpm_match` over the flat array with
`optimize = false`.  Both modes first store the operand in the opcode
context slot. -/
def tiered_execute_instruction (s : TieredState) (vm : VMState) (i : Instr) (k : Nat) :
    Option (TieredState × VMState × List (Nat × Int)) :=
  if s.mode = .cached then
    if s.rule_cache i.op then
      let s1 := { s with operand_slots := fun x => if x = i.op then i.operand else s.operand_slots x }
      let evs := sfpm_rule_execute_payload (create_opcode_rule i.op)
      let r := apply_rule_events s1 evs vm
      some ({ s1 with cached_dispatches := s1.cached_dispatches + 1 }, r.1, r.2)
    else none
  else
    let s1 := { s with operand_slots := fun x => if x = i.op then i.operand else s.operand_slots x }
    let facts : FactSource := dict_try_get [("opcode", .intVal (Int.ofNat i.op))]
    let evs := sfpm_match_events (s1.all_rules.map create_opcode_rule) facts false k
    let r := apply_rule_events s1 evs vm
    some ({ s1 with uncached_dispatches := s1.uncached_dispatches + 1 }, r.1, r.2)

/-- `tiered_run_program`: fetch (incrementing `pc` before dispatch) and
execute while `pc` is in range and the VM has not halted.  The `Bool`
result records whether the run completed without the cached-mode fatal
unknown-opcode error.  `fuel` bounds the number of executed
instructions (handlers may rewrite `pc`). -/
def tiered_run_program :
    Nat → TieredState → VMState → List Instr → Nat →
    TieredState × VMState × List (Nat × Int) × Bool
  | 0, s, vm, _, _ => (s, vm, [], true)
  | fuel + 1, s, vm, program, k =>
    if vm.pc < program.length ∧ vm.halted = false then
      let i := program.getD vm.pc default
      let vm1 := { vm with pc := vm.pc + 1 }
      match tiered_execute_instruction s vm1 i k with
      | none => (s, vm1, [], false)
      | some (s2, vm2, tr) =>
        let rest := tiered_run_program fuel s2 vm2 program k
        (rest.1, rest.2.1, tr ++ rest.2.2.1, rest.2.2.2)
    else (s, vm, [], true)

/-! ## Snapshot engine (`src/snapshot.c`)

A snapshot file is a byte list.  The metadata block is laid out as the
documented bit-exact little-endian format
(`[u32 version][u64 timestamp][u64 total_size][u32 num_regions][u8 x 256 description]`);
the C code writes and reads the same `sfpm_snapshot_metadata_t` image on
both sides, so every claim below is insensitive to compiler padding.
The caller memory behind the declared regions is a list of byte lists,
one per region, in region order. -/

/-- `SFPM_SNAPSHOT_MAGIC`. -/
def SFPM_SNAPSHOT_MAGIC : Nat := 0x5346504D

/-- `SFPM_SNAPSHOT_VERSION`. -/
def SFPM_SNAPSHOT_VERSION : Nat := 1

/-- One `sfpm_memory_region_t` descriptor: the base address is replaced
by the position in the region list; `name` is the NUL-free byte list of
the region name (`"unnamed"` substituted by `add_region` when NULL). -/
structure MemRegion where
  size : Nat
  name : List Nat
  is_dynamic : Bool

/-- An `sfpm_snapshot_t` descriptor (`struct sfpm_snapshot`): the
declared regions plus the description bytes. -/
structure Snapshot where
  regions : List MemRegion
  description : List Nat

/-- Little-endian byte image of `n` in `w` bytes (C writes the `w`-byte
integer image, truncating `n` modulo `2 ^ (8 * w)`). -/
def le_bytes (w n : Nat) : List Nat :=
  match w with
  | 0 => []
  | w + 1 => n % 256 :: le_bytes w (n / 256)

/-- Value of a little-endian byte list. -/
def nat_of_le_bytes : List Nat → Nat
  | [] => 0
  | b :: rest => b + 256 * nat_of_le_bytes rest

/-- `fread` of exactly `n` bytes: fails when fewer remain. -/
def read_bytes (n : Nat) (bs : List Nat) : Option (List Nat × List Nat) :=
  if n ≤ bs.length then some (bs.take n, bs.drop n) else none

/-- `fread` of one `n`-byte little-endian integer. -/
def read_le_nat (w : Nat) (bs : List Nat) : Option (Nat × List Nat) :=
  match read_bytes w bs with
  | none => none
  | some (chunk, rest) => some (nat_of_le_bytes chunk, rest)

/-- The 256-byte description image: `strncpy` into the zero-initialised
metadata struct copies at most 255 bytes and leaves the rest NUL. -/
def pad_description (d : List Nat) : List Nat :=
  d.take 255 ++ List.replicate (256 - (d.take 255).length) 0

/-- `metadata.total_size`: sum of the declared region sizes. -/
def snapshot_total_size (snap : Snapshot) : Nat :=
  snap.regions.foldl (fun a r => a + r.size) 0

/-- The per-region records written by `sfpm_snapshot_save`:
`[u64 size][u8 is_dynamic][u32 name_len][name bytes][size raw bytes]`
per region in insertion order.  Each region content list models the
`size` bytes behind the region base address. -/
def save_region_records : List (MemRegion × List Nat) → List Nat
  | [] => []
  | (reg, content) :: rest =>
    le_bytes 8 reg.size ++ [if reg.is_dynamic then 1 else 0]
      ++ le_bytes 4 reg.name.length ++ reg.name ++ content
      ++ save_region_records rest

/-- `sfpm_snapshot_save` as the byte image it writes: magic, metadata
(version 1, wall-clock `timestamp`, total size, region count,
description), then the region records. -/
def sfpm_snapshot_save (snap : Snapshot) (mem : List (List Nat)) (timestamp : Nat) : List Nat :=
  le_bytes 4 SFPM_SNAPSHOT_MAGIC
    ++ le_bytes 4 SFPM_SNAPSHOT_VERSION
    ++ le_bytes 8 timestamp
    ++ le_bytes 8 (snapshot_total_size snap)
    ++ le_bytes 4 snap.regions.length
    ++ pad_description snap.description
    ++ save_region_records (snap.regions.zip mem)

/-- The restore loop of `sfpm_snapshot_restore` over the declared
regions paired with the caller memory behind them: read the record
header, skip the stored name (`fseek`), fail on a stored-size /
declared-size mismatch, else read the stored bytes into the region.  A
short read into a region deposits the available bytes into the region
prefix (as a partial `fread` does) and fails.  On failure the regions
not yet reached are returned unmodified. -/
def restore_regions : List (MemRegion × List Nat) → List Nat → Bool × List (List Nat)
  | [], _ => (true, [])
  | (reg, content) :: rest, bs =>
    match read_le_nat 8 bs with
    | none => (false, content :: rest.map Prod.snd)
    | some (stored_size, bs1) =>
      match read_le_nat 1 bs1 with
      | none => (false, content :: rest.map Prod.snd)
      | some (_, bs2) =>
        match read_le_nat 4 bs2 with
        | none => (false, content :: rest.map Prod.snd)
        | some (name_len, bs3) =>
          let bs4 := bs3.drop name_len
          if stored_size = reg.size then
            if reg.size ≤ bs4.length then
              let r := restore_regions rest (bs4.drop reg.size)
              (r.1, (bs4.take reg.size ++ content.drop reg.size) :: r.2)
            else (false, (bs4 ++ content.drop bs4.length) :: rest.map Prod.snd)
          else (false, content :: rest.map Prod.snd)

/-- `sfpm_snapshot_restore`: verify the magic, read the metadata block
(any truncation fails), check `version = 1` and
`num_regions = region_count` of the target descriptor, then restore the
regions in order into the caller memory.  Returns the C result together
with the caller memory after the call. -/
def sfpm_snapshot_restore (file : List Nat) (snap : Snapshot) (mem : List (List Nat)) :
    Bool × List (List Nat) :=
  match read_le_nat 4 file with
  | none => (false, mem)
  | some (magic, r1) =>
    if magic ≠ SFPM_SNAPSHOT_MAGIC then (false, mem)
    else
      match read_le_nat 4 r1 with
      | none => (false, mem)
      | some (version, r2) =>
        match read_le_nat 8 r2 with
        | none => (false, mem)
        | some (_, r3) =>
          match read_le_nat 8 r3 with
          | none => (false, mem)
          | some (_, r4) =>
            match read_le_nat 4 r4 with
            | none => (false, mem)
            | some (num_regions, r5) =>
              match read_bytes 256 r5 with
              | none => (false, mem)
              | some (_, r6) =>
                if version ≠ SFPM_SNAPSHOT_VERSION then (false, mem)
                else if num_regions ≠ snap.regions.length then (false, mem)
                else restore_regions (snap.regions.zip mem) r6

/-! ## Spec-side vocabulary used to state the claims -/

/-- Claim-side description of one abortable hook chain walk: the hooks
called are the passing prefix in insertion order plus the first hook
returning false, if any. -/
def chain_calls (hs : List Hook) : List Nat :=
  (hs.takeWhile (fun h => h.ret)).map Hook.id
    ++ ((hs.dropWhile (fun h => h.ret)).take 1).map Hook.id

/-- Claim-side: does every hook of the chain return true (so that the
walk completes without aborting)? -/
def chain_passes (hs : List Hook) : Bool :=
  hs.all (fun h => h.ret)

/-- Claim-side reading of a comparison operator over an ordered type
(`actual` on the left, `expected` on the right), as in the spec table
`equal: cmp = 0, …, greater: cmp > 0` for a three-way compare by the
order.  Instantiated at `Int` (int facts), `Rat` (float/double facts)
and `Bool` (with `false < true`). -/
def sfpm_op_rel {α : Type} [LinearOrder α] (op : SfpmOperator) (actual expected : α) : Prop :=
  match op with
  | .equal => actual = expected
  | .notEqual => actual ≠ expected
  | .greaterThan => expected < actual
  | .lessThan => actual < expected
  | .greaterThanOrEqual => expected ≤ actual
  | .lessThanOrEqual => actual ≤ expected
  | .predicate => False

/-- Claim-side reading of a comparison operator over strings compared
lexicographically byte by byte (`List.Lex` on the byte lists). -/
def sfpm_lex_rel (op : SfpmOperator) (actual expected : List Nat) : Prop :=
  match op with
  | .equal => actual = expected
  | .notEqual => actual ≠ expected
  | .greaterThan => List.Lex (fun a b => a < b) expected actual
  | .lessThan => List.Lex (fun a b => a < b) actual expected
  | .greaterThanOrEqual => ¬List.Lex (fun a b => a < b) actual expected
  | .lessThanOrEqual => ¬List.Lex (fun a b => a < b) expected actual
  | .predicate => False

/-- The flat-array invariant of the tiered interpreter (spec §3): the
flat rule array holds exactly the occupied direct-index slots, each
once. -/
def tiered_inv (s : TieredState) : Prop :=
  s.all_rules.Nodup ∧ ∀ op : Nat, s.rule_cache op = true ↔ op ∈ s.all_rules

/-- Well-formedness of a snapshot descriptor together with the caller
memory behind its regions: one content list per region of exactly the
declared size, and the C integer-width bounds (`uint32_t` region count
and name lengths, `uint64_t` sizes). -/
def snapshot_wf (snap : Snapshot) (mem : List (List Nat)) : Prop :=
  snap.regions.length < 2 ^ 32
    ∧ mem.length = snap.regions.length
    ∧ (∀ p ∈ snap.regions.zip mem, p.2.length = p.1.size)
    ∧ ∀ reg ∈ snap.regions, reg.size < 2 ^ 64 ∧ reg.name.length < 2 ^ 32

/-! ## Concrete instances used by witnesses and counterexamples -/

/-- Fact source of spec scenario 2: facts `{a: 1, b: 2}`. -/
def facts_ab : FactSource :=
  dict_try_get [("a", .intVal 1), ("b", .intVal 2)]

/-- Rule with the single criterion `a == 1` (spec scenario 2). -/
def rule_a : Rule Nat :=
  ⟨[⟨"a", .equal, .intVal 1, none⟩], some 1, 0, [], [], []⟩

/-- Rule with criteria `a == 1 ∧ b == 2` (spec scenario 2). -/
def rule_ab : Rule Nat :=
  ⟨[⟨"a", .equal, .intVal 1, none⟩, ⟨"b", .equal, .intVal 2, none⟩], some 2, 0, [], [], []⟩

/-- A rule with a payload and hooks on all three chains, the second
before hook aborting. -/
def rule_hooked : Rule Nat :=
  ⟨[], some 7, 0, [⟨1, true⟩, ⟨2, false⟩, ⟨3, true⟩], [⟨4, true⟩], [⟨5, true⟩, ⟨6, true⟩]⟩

/-- A rule with hooks on all three chains but a NULL payload. -/
def rule_null_payload : Rule Nat :=
  ⟨[], none, 0, [⟨1, true⟩], [⟨2, true⟩], [⟨3, true⟩]⟩

/-- A predicate criterion on fact `x` whose predicate accepts every
value; the claim treats its input tag as `int`. -/
def crit_pred : Criteria :=
  ⟨"x", .predicate, .intVal 0, some (fun _ => true)⟩

/-- Fact source holding a bool under the name `x`. -/
def facts_x_bool : FactSource :=
  dict_try_get [("x", .boolVal true)]

/-- An opcode handler that pushes its operand (the shape of `op_push`). -/
def handler_push : OpcodeHandler :=
  fun vm operand => { vm with stack := operand :: vm.stack }

/-- A tiered interpreter state with exactly opcode 1 registered, in
cached mode. -/
def state_op1 : TieredState :=
  { mode := .cached
    cache_version := 1
    rule_cache := fun op => op == 1
    handlers := fun _ => handler_push
    operand_slots := fun _ => 0
    all_rules := [1]
    cached_dispatches := 0
    uncached_dispatches := 0
    cache_invalidations := 0 }

/-- A freshly initialised VM. -/
def vm_init : VMState := ⟨[], 0, false, false⟩

/-- A program whose first instruction uses the unregistered opcode 5
and whose second uses the registered opcode 1. -/
def prog_unknown_then_push : List Instr := [⟨5, 0⟩, ⟨1, 7⟩]

/-- A one-region snapshot descriptor (region of 2 bytes named `n`). -/
def snap_two : Snapshot := ⟨[⟨2, [110], false⟩], [99]⟩

/-- A one-region snapshot descriptor whose region has size 3. -/
def snap_three : Snapshot := ⟨[⟨3, [110], false⟩], [99]⟩

/-- A two-region snapshot descriptor (sizes 2 and 1). -/
def snap_two_one : Snapshot := ⟨[⟨2, [110], false⟩, ⟨1, [109], false⟩], [99]⟩

/-- A two-region descriptor with the second region size changed to 2. -/
def snap_two_two : Snapshot := ⟨[⟨2, [110], false⟩, ⟨2, [109], false⟩], [99]⟩

/-! ## Helper lemmas -/

theorem eval_criteria_list_eq_all (facts : FactSource) (l : List Criteria) :
    eval_criteria_list facts l = l.all (fun c => sfpm_criteria_evaluate c facts) := by
  induction l with
  | nil => rfl
  | cons c rest ih =>
    by_cases h : sfpm_criteria_evaluate c facts = true
    · simp [eval_criteria_list, h, ih]
    · simp [eval_criteria_list, Bool.eq_false_iff.mpr h]

theorem run_abort_chain_eq (hs : List Hook) :
    run_abort_chain hs = (chain_calls hs, chain_passes hs) := by
  induction hs with
  | nil => rfl
  | cons h rest ih =>
    by_cases hr : h.ret = true
    · simp [run_abort_chain, hr, ih, chain_calls, chain_passes, List.takeWhile_cons,
        List.dropWhile_cons]
    · have hr2 : h.ret = false := Bool.eq_false_iff.mpr hr
      simp [run_abort_chain, hr2, chain_calls, chain_passes, List.takeWhile_cons,
        List.dropWhile_cons]

/-! ## Claims -/

/-- C7: `sfpm_rule_evaluate` returns `{true, n}` (with `n` the criteria
count) exactly when every criterion holds, `{false, 0}` otherwise; a
zero-criteria rule returns `{true, 0}`; and once a criterion fails
after a passing prefix, the result is `{false, 0}` whatever criteria
follow (they are not evaluated). -/
theorem sfpm_rule_evaluate_conjunction {π : Type} (r : Rule π) (facts : FactSource) :
    (sfpm_rule_evaluate r facts =
      if r.criterias.all (fun c => sfpm_criteria_evaluate c facts)
      then ⟨true, r.criterias.length⟩ else ⟨false, 0⟩)
    ∧ (r.criterias = [] → sfpm_rule_evaluate r facts = ⟨true, 0⟩)
    ∧ (∀ pre c post, r.criterias = pre ++ c :: post →
        (∀ c2 ∈ pre, sfpm_criteria_evaluate c2 facts = true) →
        sfpm_criteria_evaluate c facts = false →
        ∀ post2, sfpm_rule_evaluate { r with criterias := pre ++ c :: post2 } facts = ⟨false, 0⟩) := by
  refine ⟨?_, ?_, ?_⟩
  · unfold sfpm_rule_evaluate
    rw [eval_criteria_list_eq_all]
    rcases Nat.eq_zero_or_pos r.criterias.length with h | h
    · have hnil : r.criterias = [] := List.length_eq_zero.mp h
      simp [hnil]
    · have hne : ¬r.criterias.length = 0 := by omega
      simp [hne]
  · intro h
    simp [sfpm_rule_evaluate, h]
  · intro pre c post _ _ hc post2
    have hall : (pre ++ c :: post2).all (fun c2 => sfpm_criteria_evaluate c2 facts) = false := by
      simp [List.all_append, hc]
    have hlen : ¬(pre ++ c :: post2).length = 0 := by simp
    unfold sfpm_rule_evaluate
    rw [eval_criteria_list_eq_all]
    simp only [hall, hlen]
    simp

/-- Witness for C7 at spec scenario 2: `rule_ab` over facts
`{a: 1, b: 2}` matches with count 2, and cutting it at a failing
criterion yields `{false, 0}`. -/
theorem sfpm_rule_evaluate_conjunction_witness :
    (sfpm_rule_evaluate rule_ab facts_ab =
      if rule_ab.criterias.all (fun c => sfpm_criteria_evaluate c facts_ab)
      then ⟨true, rule_ab.criterias.length⟩ else ⟨false, 0⟩)
    ∧ sfpm_rule_evaluate
        { rule_ab with criterias := [⟨"a", .equal, .intVal 2, none⟩] } facts_ab = ⟨false, 0⟩ := by
  refine ⟨(sfpm_rule_evaluate_conjunction rule_ab facts_ab).1, ?_⟩
  exact (sfpm_rule_evaluate_conjunction
      { rule_ab with criterias := [⟨"a", .equal, .intVal 2, none⟩] } facts_ab).2.2
    [] ⟨"a", .equal, .intVal 2, none⟩ [] rfl (by intro c2 hc2; cases hc2) (by decide) []

/-- C2: with a non-null payload, one firing observes exactly the before
chain in insertion order up to and including the first hook returning
false; then, only if no before hook aborted, the middleware chain the
same way; then, only if neither chain aborted, the payload followed by
the entire after chain in insertion order; and if a before or
middleware hook aborts, the payload is not called. -/
theorem sfpm_execute_payload_hook_order {π : Type} (r : Rule π) (p : π)
    (hp : r.payload = some p) :
    (sfpm_rule_execute_payload r =
      (chain_calls r.before_hook_chain).map RuleEvent.hookCall
        ++ (if chain_passes r.before_hook_chain then
              (chain_calls r.middleware_hook_chain).map RuleEvent.hookCall
                ++ (if chain_passes r.middleware_hook_chain then
                      RuleEvent.payloadCall p
                        :: r.after_hook_chain.map (fun h => RuleEvent.hookCall h.id)
                    else [])
            else []))
    ∧ (¬(chain_passes r.before_hook_chain = true ∧ chain_passes r.middleware_hook_chain = true) →
        RuleEvent.payloadCall p ∉ sfpm_rule_execute_payload r) := by
  constructor
  · unfold sfpm_rule_execute_payload
    rw [hp]
    rw [run_abort_chain_eq, run_abort_chain_eq]
    by_cases hb : chain_passes r.before_hook_chain = true
    · by_cases hm : chain_passes r.middleware_hook_chain = true
      · simp [hb, hm]
      · simp [hb, Bool.eq_false_iff.mpr hm]
    · simp [Bool.eq_false_iff.mpr hb]
  · intro habort
    unfold sfpm_rule_execute_payload
    rw [hp]
    rw [run_abort_chain_eq, run_abort_chain_eq]
    by_cases hb : chain_passes r.before_hook_chain = true
    · have hm : ¬chain_passes r.middleware_hook_chain = true := fun h => habort ⟨hb, h⟩
      simp [hb, Bool.eq_false_iff.mpr hm, List.mem_map]
    · simp [Bool.eq_false_iff.mpr hb, List.mem_map]

/-- Witness for C2 at `rule_hooked`: the second before hook aborts, so
the observed calls are hooks 1 and 2 only and the payload is absent. -/
theorem sfpm_execute_payload_hook_order_witness :
    sfpm_rule_execute_payload rule_hooked = [RuleEvent.hookCall 1, RuleEvent.hookCall 2]
    ∧ RuleEvent.payloadCall 7 ∉ sfpm_rule_execute_payload rule_hooked := by
  have h := sfpm_execute_payload_hook_order rule_hooked 7 rfl
  exact ⟨h.1.trans (by decide), h.2 (by decide)⟩

/-- C10 counterexample: `rule_null_payload` has a NULL payload and one
hook on each chain; `sfpm_rule_execute_payload` observes no calls at
all, not the hook walk `[1, 2, 3]` the claim predicts. -/
theorem sfpm_null_payload_skips_hooks_counterexample :
    sfpm_rule_execute_payload rule_null_payload = ([] : List (RuleEvent Nat))
    ∧ sfpm_rule_execute_payload rule_null_payload ≠
        [RuleEvent.hookCall 1, RuleEvent.hookCall 2, RuleEvent.hookCall 3] := by
  decide

/-- C10 amended: for every rule whose payload is null,
`sfpm_rule_execute_payload` returns immediately — no before, middleware
or after hook runs and the payload is not invoked (the observed call
list is empty). -/
theorem sfpm_null_payload_returns_immediately {π : Type} (r : Rule π)
    (hp : r.payload = none) :
    sfpm_rule_execute_payload r = [] := by
  unfold sfpm_rule_execute_payload
  rw [hp]

/-- Witness for the amended C10 at `rule_null_payload`. -/
theorem sfpm_null_payload_returns_immediately_witness :
    sfpm_rule_execute_payload rule_null_payload = ([] : List (RuleEvent Nat)) :=
  sfpm_null_payload_returns_immediately rule_null_payload rfl

/-- C9 counterexample: `crit_pred` is a predicate criterion whose
input tag per the claim is `int` (its `expected_value` slot holds an
int; the C API records no input tag at all), evaluated against a fact
source storing a bool under `x`.  The claim predicts evaluation
returns false without invoking the predicate; the code invokes the
predicate on the bool value and returns its result, true. -/
theorem sfpm_predicate_invoked_despite_tag_mismatch :
    sfpm_criteria_evaluate crit_pred facts_x_bool = true
    ∧ sfpm_value_type (.boolVal true) ≠ sfpm_value_type (.intVal 0) := by
  decide

/-- C9 amended: predicate criteria carry no input tag; whenever the
fact is present the predicate (if non-null) is invoked with the
retrieved value — whatever its tag — and its result is returned, and a
null predicate yields false. -/
theorem sfpm_predicate_no_tag_guard (c : Criteria) (facts : FactSource) (v : SfpmValue)
    (hop : c.op = .predicate) (hv : facts c.fact_name = some v) :
    sfpm_criteria_evaluate c facts = Option.elim c.predicate false (fun p => p v) := by
  cases hpred : c.predicate with
  | none => simp [sfpm_criteria_evaluate, hv, hop, hpred]
  | some p => simp [sfpm_criteria_evaluate, hv, hop, hpred]

/-- Witness for the amended C9 at `crit_pred` over `facts_x_bool`. -/
theorem sfpm_predicate_no_tag_guard_witness :
    sfpm_criteria_evaluate crit_pred facts_x_bool =
      Option.elim crit_pred.predicate false (fun p => p (.boolVal true)) :=
  sfpm_predicate_no_tag_guard crit_pred facts_x_bool (.boolVal true) rfl rfl

/-- C6: from cached mode, both `tiered_register_opcode` and
`tiered_unregister_opcode` leave the dispatcher in uncached mode with a
strictly larger `cache_invalidations` counter. -/
theorem tiered_mutation_invalidates_cache (s : TieredState) (op : Nat) (h : OpcodeHandler)
    (hm : s.mode = .cached) :
    ((tiered_register_opcode s op h).mode = .uncached
      ∧ s.cache_invalidations < (tiered_register_opcode s op h).cache_invalidations)
    ∧ ((tiered_unregister_opcode s op).mode = .uncached
      ∧ s.cache_invalidations < (tiered_unregister_opcode s op).cache_invalidations) := by
  constructor
  · unfold tiered_register_opcode tiered_enter_uncached_mode
    simp only [hm]
    simp
  · unfold tiered_unregister_opcode tiered_enter_uncached_mode
    by_cases hc : s.rule_cache op = true <;> simp [hc, hm]

/-- Witness for C6 at `state_op1` (cached, opcode 1 registered),
registering and unregistering opcode 2. -/
theorem tiered_mutation_invalidates_cache_witness :
    (((tiered_register_opcode state_op1 2 handler_push).mode = .uncached
      ∧ state_op1.cache_invalidations
          < (tiered_register_opcode state_op1 2 handler_push).cache_invalidations)
    ∧ ((tiered_unregister_opcode state_op1 2).mode = .uncached
      ∧ state_op1.cache_invalidations
          < (tiered_unregister_opcode state_op1 2).cache_invalidations)) :=
  tiered_mutation_invalidates_cache state_op1 2 handler_push rfl

theorem three_way_spec {α : Type} [LinearOrder α] (a b : α) :
    ((if a < b then (-1 : Int) else if a > b then 1 else 0) = 0 ↔ a = b)
    ∧ ((if a < b then (-1 : Int) else if a > b then 1 else 0) < 0 ↔ a < b)
    ∧ (0 < (if a < b then (-1 : Int) else if a > b then 1 else 0) ↔ b < a) := by
  rcases lt_trichotomy a b with h | h | h
  · rw [if_pos h]
    refine ⟨?_, ?_, ?_⟩ <;> norm_num
    · exact ne_of_lt h
    · exact h
    · exact le_of_lt h
  · subst h
    rw [if_neg (lt_irrefl a), if_neg (lt_irrefl a)]
    norm_num
  · rw [if_neg (lt_asymm h), if_pos h]
    refine ⟨?_, ?_, ?_⟩ <;> norm_num
    · exact ne_of_gt h
    · exact le_of_lt h
    · exact h

theorem apply_operator_three_way {α : Type} [LinearOrder α] (op : SfpmOperator) (a b : α)
    (hop : op ≠ .predicate) :
    (sfpm_apply_operator op (if a < b then (-1 : Int) else if a > b then 1 else 0) = true
      ↔ sfpm_op_rel op a b) := by
  obtain ⟨h0, hneg, hpos⟩ := three_way_spec a b
  cases op with
  | equal => simpa [sfpm_apply_operator, sfpm_op_rel] using h0
  | notEqual =>
    simp only [sfpm_apply_operator, sfpm_op_rel, decide_eq_true_eq, ne_eq]
    exact not_congr h0
  | greaterThan => simpa [sfpm_apply_operator, sfpm_op_rel] using hpos
  | lessThan => simpa [sfpm_apply_operator, sfpm_op_rel] using hneg
  | greaterThanOrEqual =>
    simp only [sfpm_apply_operator, sfpm_op_rel, decide_eq_true_eq, ge_iff_le]
    rw [← not_lt, ← not_lt]
    exact not_congr hneg
  | lessThanOrEqual =>
    simp only [sfpm_apply_operator, sfpm_op_rel, decide_eq_true_eq]
    rw [← not_lt, ← not_lt]
    exact not_congr hpos
  | predicate => exact absurd rfl hop

theorem compare_string_eq_zero (a b : List Nat) : compare_string a b = 0 ↔ a = b := by
  induction a generalizing b with
  | nil =>
    cases b with
    | nil => simp [compare_string]
    | cons y ys => simp [compare_string]
  | cons x xs ih =>
    cases b with
    | nil => simp [compare_string]
    | cons y ys =>
      by_cases h1 : x < y
      · simp only [compare_string, if_pos h1]
        constructor
        · intro h; norm_num at h
        · intro h
          exact absurd (List.cons.injEq x xs y ys ▸ congrArg id h) (by
            intro hh
            have hx : x = y := by
              have := congrArg (fun l => List.headD l 0) h
              simpa using this
            omega)
      · by_cases h2 : y < x
        · simp only [compare_string, if_neg h1, if_pos h2]
          constructor
          · intro h; norm_num at h
          · intro h
            have hx : x = y := by
              have := congrArg (fun l => List.headD l 0) h
              simpa using this
            omega
        · have hx : x = y := by omega
          subst hx
          simp only [compare_string, if_neg h1, if_neg h2]
          rw [ih ys]
          simp

theorem compare_string_neg (a b : List Nat) :
    compare_string a b < 0 ↔ List.Lex (fun x y => x < y) a b := by
  induction a generalizing b with
  | nil =>
    cases b with
    | nil =>
      simp only [compare_string]
      constructor
      · intro h; norm_num at h
      · intro h; cases h
    | cons y ys =>
      simp only [compare_string]
      constructor
      · intro _; exact List.Lex.nil
      · intro _; norm_num
  | cons x xs ih =>
    cases b with
    | nil =>
      simp only [compare_string]
      constructor
      · intro h; norm_num at h
      · intro h; cases h
    | cons y ys =>
      by_cases h1 : x < y
      · simp only [compare_string, if_pos h1]
        constructor
        · intro _; exact List.Lex.rel h1
        · intro _; norm_num
      · by_cases h2 : y < x
        · simp only [compare_string, if_neg h1, if_pos h2]
          constructor
          · intro h; norm_num at h
          · intro h
            cases h with
            | rel hr => omega
            | cons ht => omega
        · have hx : x = y := by omega
          subst hx
          simp only [compare_string, if_neg h1, if_neg h2]
          rw [ih ys]
          constructor
          · intro h; exact List.Lex.cons h
          · intro h
            cases h with
            | rel hr => omega
            | cons ht => exact ht

theorem compare_string_pos (a b : List Nat) :
    0 < compare_string a b ↔ List.Lex (fun x y => x < y) b a := by
  induction a generalizing b with
  | nil =>
    cases b with
    | nil =>
      simp only [compare_string]
      constructor
      · intro h; norm_num at h
      · intro h; cases h
    | cons y ys =>
      simp only [compare_string]
      constructor
      · intro h; norm_num at h
      · intro h; cases h
  | cons x xs ih =>
    cases b with
    | nil =>
      simp only [compare_string]
      constructor
      · intro _; exact List.Lex.nil
      · intro _; norm_num
    | cons y ys =>
      by_cases h1 : x < y
      · simp only [compare_string, if_pos h1]
        constructor
        · intro h; norm_num at h
        · intro h
          cases h with
          | rel hr => omega
          | cons ht => omega
      · by_cases h2 : y < x
        · simp only [compare_string, if_neg h1, if_pos h2]
          constructor
          · intro _; exact List.Lex.rel h2
          · intro _; norm_num
        · have hx : x = y := by omega
          subst hx
          simp only [compare_string, if_neg h1, if_neg h2]
          rw [ih ys]
          constructor
          · intro h; exact List.Lex.cons h
          · intro h
            cases h with
            | rel hr => omega
            | cons ht => exact ht

theorem compare_bool_three_way (a b : Bool) :
    compare_bool a b = if a < b then -1 else if a > b then 1 else 0 := by
  cases a <;> cases b <;> rfl

theorem evaluate_comparison_mismatch (a b : SfpmValue) (op : SfpmOperator)
    (h : sfpm_value_type a ≠ sfpm_value_type b) :
    evaluate_comparison a b op = false := by
  cases a <;> cases b <;> first | rfl | exact absurd rfl h

theorem apply_operator_string (op : SfpmOperator) (a b : List Nat)
    (hop : op ≠ .predicate) :
    (sfpm_apply_operator op (compare_string a b) = true ↔ sfpm_lex_rel op a b) := by
  cases op with
  | equal => simpa [sfpm_apply_operator, sfpm_lex_rel] using compare_string_eq_zero a b
  | notEqual =>
    simp only [sfpm_apply_operator, sfpm_lex_rel, decide_eq_true_eq, ne_eq]
    exact not_congr (compare_string_eq_zero a b)
  | greaterThan =>
    simpa [sfpm_apply_operator, sfpm_lex_rel] using compare_string_pos a b
  | lessThan =>
    simpa [sfpm_apply_operator, sfpm_lex_rel] using compare_string_neg a b
  | greaterThanOrEqual =>
    simp only [sfpm_apply_operator, sfpm_lex_rel, decide_eq_true_eq, ge_iff_le]
    rw [← not_lt]
    exact not_congr (compare_string_neg a b)
  | lessThanOrEqual =>
    simp only [sfpm_apply_operator, sfpm_lex_rel, decide_eq_true_eq]
    rw [← not_lt]
    exact not_congr (compare_string_pos a b)
  | predicate => exact absurd rfl hop

/-- C8: for a comparison criterion, evaluation returns false on a fact
miss, false on a tag mismatch, and otherwise maps the tag-directed
three-way comparison (int/float/double by numeric value, string by
lexicographic byte comparison, bool with `false < true`) through the
operator (`equal: cmp = 0`, `not-equal: cmp ≠ 0`, `greater: cmp > 0`,
`less: cmp < 0`, `ge: cmp ≥ 0`, `le: cmp ≤ 0`). -/
theorem sfpm_comparison_semantics (facts : FactSource) (name : String) (op : SfpmOperator)
    (e : SfpmValue) (hop : op ≠ .predicate) :
    (facts name = none → sfpm_criteria_evaluate ⟨name, op, e, none⟩ facts = false)
    ∧ (∀ v, facts name = some v → sfpm_value_type v ≠ sfpm_value_type e →
        sfpm_criteria_evaluate ⟨name, op, e, none⟩ facts = false)
    ∧ (∀ a b : Int, facts name = some (.intVal a) → e = .intVal b →
        (sfpm_criteria_evaluate ⟨name, op, e, none⟩ facts = true ↔ sfpm_op_rel op a b))
    ∧ (∀ a b : Rat, facts name = some (.floatVal a) → e = .floatVal b →
        (sfpm_criteria_evaluate ⟨name, op, e, none⟩ facts = true ↔ sfpm_op_rel op a b))
    ∧ (∀ a b : Rat, facts name = some (.doubleVal a) → e = .doubleVal b →
        (sfpm_criteria_evaluate ⟨name, op, e, none⟩ facts = true ↔ sfpm_op_rel op a b))
    ∧ (∀ a b : List Nat, facts name = some (.stringVal a) → e = .stringVal b →
        (sfpm_criteria_evaluate ⟨name, op, e, none⟩ facts = true ↔ sfpm_lex_rel op a b))
    ∧ (∀ a b : Bool, facts name = some (.boolVal a) → e = .boolVal b →
        (sfpm_criteria_evaluate ⟨name, op, e, none⟩ facts = true ↔ sfpm_op_rel op a b)) := by
  refine ⟨?_, ?_, ?_, ?_, ?_, ?_, ?_⟩
  · intro h
    simp [sfpm_criteria_evaluate, h]
  · intro v hv hmis
    simp only [sfpm_criteria_evaluate, hv, if_neg hop]
    exact evaluate_comparison_mismatch v e op hmis
  · intro a b hv he
    subst he
    simp only [sfpm_criteria_evaluate, hv, if_neg hop]
    exact apply_operator_three_way op a b hop
  · intro a b hv he
    subst he
    simp only [sfpm_criteria_evaluate, hv, if_neg hop]
    exact apply_operator_three_way op a b hop
  · intro a b hv he
    subst he
    simp only [sfpm_criteria_evaluate, hv, if_neg hop]
    exact apply_operator_three_way op a b hop
  · intro a b hv he
    subst he
    simp only [sfpm_criteria_evaluate, hv, if_neg hop]
    exact apply_operator_string op a b hop
  · intro a b hv he
    subst he
    simp only [sfpm_criteria_evaluate, hv, if_neg hop]
    show sfpm_apply_operator op (compare_bool a b) = true ↔ sfpm_op_rel op a b
    rw [compare_bool_three_way a b]
    exact apply_operator_three_way op a b hop

/-- Witness for C8: fact `a` holds int 1, criterion `a > 0`. -/
theorem sfpm_comparison_semantics_witness :
    (sfpm_criteria_evaluate ⟨"a", .greaterThan, .intVal 0, none⟩ facts_ab = true
      ↔ sfpm_op_rel .greaterThan (1 : Int) 0) :=
  (sfpm_comparison_semantics facts_ab "a" .greaterThan (.intVal 0)
    (by decide)).2.2.1 1 0 rfl rfl

theorem sfpm_rule_evaluate_cases {π : Type} (r : Rule π) (facts : FactSource) :
    sfpm_rule_evaluate r facts = ⟨true, r.criterias.length⟩
    ∨ sfpm_rule_evaluate r facts = ⟨false, 0⟩ := by
  unfold sfpm_rule_evaluate
  split_ifs with h0 h1
  · left
    simp [h0]
  · left; rfl
  · right; rfl



theorem sfpm_match_loop_cons_matched {π : Type} (opt : Bool) (facts : FactSource)
    (r : Rule π) (rest : List (Rule π)) (best : Nat) (acc : List (Rule π))
    (hev : sfpm_rule_evaluate r facts = ⟨true, r.criterias.length⟩) :
    sfpm_match_loop opt facts (r :: rest) best acc =
      if opt ∧ sfpm_rule_get_criteria_count r <
          (if r.criterias.length > best then (r.criterias.length, [r])
           else if r.criterias.length = best ∧ 0 < best then (best, acc ++ [r])
           else (best, acc)).1 then
        (if r.criterias.length > best then (r.criterias.length, [r])
         else if r.criterias.length = best ∧ 0 < best then (best, acc ++ [r])
         else (best, acc))
      else
        sfpm_match_loop opt facts rest
          (if r.criterias.length > best then (r.criterias.length, [r])
           else if r.criterias.length = best ∧ 0 < best then (best, acc ++ [r])
           else (best, acc)).1
          (if r.criterias.length > best then (r.criterias.length, [r])
           else if r.criterias.length = best ∧ 0 < best then (best, acc ++ [r])
           else (best, acc)).2 := by
  show (let ev := sfpm_rule_evaluate r facts
        let st :=
          if ev.matched then
            if ev.criteria_count > best then (ev.criteria_count, [r])
            else if ev.criteria_count = best ∧ 0 < best then (best, acc ++ [r])
            else (best, acc)
          else (best, acc)
        if opt ∧ sfpm_rule_get_criteria_count r < st.1 then st
        else sfpm_match_loop opt facts rest st.1 st.2) = _
  rw [hev]
  rfl

theorem sfpm_match_loop_cons_unmatched {π : Type} (opt : Bool) (facts : FactSource)
    (r : Rule π) (rest : List (Rule π)) (best : Nat) (acc : List (Rule π))
    (hev : sfpm_rule_evaluate r facts = ⟨false, 0⟩) :
    sfpm_match_loop opt facts (r :: rest) best acc =
      if opt ∧ sfpm_rule_get_criteria_count r < best then (best, acc)
      else sfpm_match_loop opt facts rest best acc := by
  show (let ev := sfpm_rule_evaluate r facts
        let st :=
          if ev.matched then
            if ev.criteria_count > best then (ev.criteria_count, [r])
            else if ev.criteria_count = best ∧ 0 < best then (best, acc ++ [r])
            else (best, acc)
          else (best, acc)
        if opt ∧ sfpm_rule_get_criteria_count r < st.1 then st
        else sfpm_match_loop opt facts rest st.1 st.2) = _
  rw [hev]
  rfl

theorem sfpm_match_loop_best_mono {π : Type} (opt : Bool) (facts : FactSource) :
    ∀ (l : List (Rule π)) (best : Nat) (acc : List (Rule π)),
      best ≤ (sfpm_match_loop opt facts l best acc).1 := by
  intro l
  induction l with
  | nil => intro best acc; exact le_refl best
  | cons r rest ih =>
    intro best acc
    rcases sfpm_rule_evaluate_cases r facts with hev | hev
    · rw [sfpm_match_loop_cons_matched opt facts r rest best acc hev]
      by_cases h1 : r.criterias.length > best
      · rw [if_pos h1]
        by_cases h2 : opt = true ∧ sfpm_rule_get_criteria_count r < (r.criterias.length, [r]).1
        · rw [if_pos h2]; exact le_of_lt h1
        · rw [if_neg h2]
          exact le_trans (le_of_lt h1) (ih _ _)
      · rw [if_neg h1]
        by_cases h2 : r.criterias.length = best ∧ 0 < best
        · rw [if_pos h2]
          by_cases h3 : opt = true ∧ sfpm_rule_get_criteria_count r < (best, acc ++ [r]).1
          · rw [if_pos h3]
          · rw [if_neg h3]; exact ih _ _
        · rw [if_neg h2]
          by_cases h3 : opt = true ∧ sfpm_rule_get_criteria_count r < (best, acc).1
          · rw [if_pos h3]
          · rw [if_neg h3]; exact ih _ _
    · rw [sfpm_match_loop_cons_unmatched opt facts r rest best acc hev]
      by_cases h3 : opt = true ∧ sfpm_rule_get_criteria_count r < best
      · rw [if_pos h3]
      · rw [if_neg h3]; exact ih _ _

theorem sfpm_match_loop_stall {π : Type} (facts : FactSource) :
    ∀ (l : List (Rule π)) (best : Nat) (acc : List (Rule π)),
      (∀ r ∈ l, sfpm_rule_get_criteria_count r < best) →
      sfpm_match_loop false facts l best acc = (best, acc) := by
  intro l
  induction l with
  | nil => intro best acc _; rfl
  | cons r rest ih =>
    intro best acc h
    have hr : sfpm_rule_get_criteria_count r < best := h r (by simp)
    have hrec : sfpm_match_loop false facts rest best acc = (best, acc) :=
      ih best acc (fun x hx => h x (by simp [hx]))
    rcases sfpm_rule_evaluate_cases r facts with hev | hev
    · rw [sfpm_match_loop_cons_matched false facts r rest best acc hev]
      have h1 : ¬r.criterias.length > best := by
        simp only [sfpm_rule_get_criteria_count] at hr; omega
      have h2 : ¬(r.criterias.length = best ∧ 0 < best) := by
        simp only [sfpm_rule_get_criteria_count] at hr; omega
      rw [if_neg h1, if_neg h2]
      have h3 : ¬((false = true) ∧ sfpm_rule_get_criteria_count r < (best, acc).1) := by simp
      rw [if_neg h3]
      exact hrec
    · rw [sfpm_match_loop_cons_unmatched false facts r rest best acc hev]
      have h3 : ¬((false = true) ∧ sfpm_rule_get_criteria_count r < best) := by simp
      rw [if_neg h3]
      exact hrec

theorem sfpm_match_loop_early_exit_eq {π : Type} (facts : FactSource) :
    ∀ (l : List (Rule π)) (best : Nat) (acc : List (Rule π)),
      l.Pairwise (fun a b => sfpm_rule_get_criteria_count b ≤ sfpm_rule_get_criteria_count a) →
      sfpm_match_loop true facts l best acc = sfpm_match_loop false facts l best acc := by
  intro l
  induction l with
  | nil => intro best acc _; rfl
  | cons r rest ih =>
    intro best acc hpw
    rw [List.pairwise_cons] at hpw
    obtain ⟨hhead, htail⟩ := hpw
    rcases sfpm_rule_evaluate_cases r facts with hev | hev
    · rw [sfpm_match_loop_cons_matched true facts r rest best acc hev,
        sfpm_match_loop_cons_matched false facts r rest best acc hev]
      have hfneg : ∀ st : Nat × List (Rule π),
          ¬((false = true) ∧ sfpm_rule_get_criteria_count r < st.1) := by simp
      by_cases h1 : r.criterias.length > best
      · rw [if_pos h1, if_neg (hfneg _)]
        by_cases hex : (true = true) ∧ sfpm_rule_get_criteria_count r < (r.criterias.length, [r]).1
        · rw [if_pos hex]
          exact (sfpm_match_loop_stall facts rest r.criterias.length [r]
            (fun x hx => lt_of_le_of_lt (hhead x hx) hex.2)).symm
        · rw [if_neg hex]
          exact ih _ _ htail
      · rw [if_neg h1]
        by_cases h2 : r.criterias.length = best ∧ 0 < best
        · rw [if_pos h2, if_neg (hfneg _)]
          by_cases hex : (true = true) ∧ sfpm_rule_get_criteria_count r < (best, acc ++ [r]).1
          · rw [if_pos hex]
            exact (sfpm_match_loop_stall facts rest best (acc ++ [r])
              (fun x hx => lt_of_le_of_lt (hhead x hx) hex.2)).symm
          · rw [if_neg hex]
            exact ih _ _ htail
        · rw [if_neg h2, if_neg (hfneg _)]
          by_cases hex : (true = true) ∧ sfpm_rule_get_criteria_count r < (best, acc).1
          · rw [if_pos hex]
            exact (sfpm_match_loop_stall facts rest best acc
              (fun x hx => lt_of_le_of_lt (hhead x hx) hex.2)).symm
          · rw [if_neg hex]
            exact ih _ _ htail
    · rw [sfpm_match_loop_cons_unmatched true facts r rest best acc hev,
        sfpm_match_loop_cons_unmatched false facts r rest best acc hev]
      have h3 : ¬((false = true) ∧ sfpm_rule_get_criteria_count r < best) := by simp
      rw [if_neg h3]
      by_cases hex : (true = true) ∧ sfpm_rule_get_criteria_count r < best
      · rw [if_pos hex]
        exact (sfpm_match_loop_stall facts rest best acc
          (fun x hx => lt_of_le_of_lt (hhead x hx) hex.2)).symm
      · rw [if_neg hex]
        exact ih _ _ htail

theorem sfpm_match_loop_inv {π : Type} (opt : Bool) (facts : FactSource) :
    ∀ (l : List (Rule π)) (best : Nat) (acc : List (Rule π)),
      (∀ r ∈ acc, (sfpm_rule_evaluate r facts).matched = true
        ∧ sfpm_rule_get_criteria_count r = best) →
      (0 < best ∨ acc = []) →
      (∀ r ∈ (sfpm_match_loop opt facts l best acc).2,
          (sfpm_rule_evaluate r facts).matched = true
          ∧ sfpm_rule_get_criteria_count r = (sfpm_match_loop opt facts l best acc).1)
        ∧ (0 < (sfpm_match_loop opt facts l best acc).1
            ∨ (sfpm_match_loop opt facts l best acc).2 = []) := by
  intro l
  induction l with
  | nil => intro best acc hacc hpos; exact ⟨hacc, hpos⟩
  | cons r rest ih =>
    intro best acc hacc hpos
    rcases sfpm_rule_evaluate_cases r facts with hev | hev
    · rw [sfpm_match_loop_cons_matched opt facts r rest best acc hev]
      have hrm : (sfpm_rule_evaluate r facts).matched = true := by rw [hev]
      by_cases h1 : r.criterias.length > best
      · rw [if_pos h1]
        have hacc2 : ∀ x ∈ [r], (sfpm_rule_evaluate x facts).matched = true
            ∧ sfpm_rule_get_criteria_count x = (r.criterias.length, [r]).1 := by
          intro x hx
          rw [List.mem_singleton] at hx
          subst hx
          exact ⟨hrm, rfl⟩
        have hpos2 : 0 < (r.criterias.length, [r]).1 ∨ ([r] : List (Rule π)) = [] := by
          left; simp only; omega
        by_cases hex : opt = true ∧ sfpm_rule_get_criteria_count r < (r.criterias.length, [r]).1
        · rw [if_pos hex]
          exact ⟨hacc2, hpos2⟩
        · rw [if_neg hex]
          exact ih _ _ hacc2 hpos2
      · rw [if_neg h1]
        by_cases h2 : r.criterias.length = best ∧ 0 < best
        · rw [if_pos h2]
          have hacc2 : ∀ x ∈ acc ++ [r], (sfpm_rule_evaluate x facts).matched = true
              ∧ sfpm_rule_get_criteria_count x = (best, acc ++ [r]).1 := by
            intro x hx
            rcases List.mem_append.mp hx with hx | hx
            · exact hacc x hx
            · rw [List.mem_singleton] at hx
              subst hx
              exact ⟨hrm, h2.1⟩
          have hpos2 : 0 < (best, acc ++ [r]).1 ∨ acc ++ [r] = [] := Or.inl h2.2
          by_cases hex : opt = true ∧ sfpm_rule_get_criteria_count r < (best, acc ++ [r]).1
          · rw [if_pos hex]
            exact ⟨hacc2, hpos2⟩
          · rw [if_neg hex]
            exact ih _ _ hacc2 hpos2
        · rw [if_neg h2]
          by_cases hex : opt = true ∧ sfpm_rule_get_criteria_count r < (best, acc).1
          · rw [if_pos hex]
            exact ⟨hacc, hpos⟩
          · rw [if_neg hex]
            exact ih _ _ hacc hpos
    · rw [sfpm_match_loop_cons_unmatched opt facts r rest best acc hev]
      by_cases hex : opt = true ∧ sfpm_rule_get_criteria_count r < best
      · rw [if_pos hex]
        exact ⟨hacc, hpos⟩
      · rw [if_neg hex]
        exact ih _ _ hacc hpos

theorem sfpm_match_loop_preserve {π : Type} (opt : Bool) (facts : FactSource) :
    ∀ (l : List (Rule π)) (best : Nat) (acc : List (Rule π)) (r0 : Rule π),
      r0 ∈ acc →
      (sfpm_match_loop opt facts l best acc).1 = best →
      r0 ∈ (sfpm_match_loop opt facts l best acc).2 := by
  intro l
  induction l with
  | nil => intro best acc r0 h0 _; exact h0
  | cons r rest ih =>
    intro best acc r0 h0 hbest
    rcases sfpm_rule_evaluate_cases r facts with hev | hev
    · rw [sfpm_match_loop_cons_matched opt facts r rest best acc hev] at hbest ⊢
      by_cases h1 : r.criterias.length > best
      · exfalso
        rw [if_pos h1] at hbest
        by_cases hex : opt = true ∧ sfpm_rule_get_criteria_count r < (r.criterias.length, [r]).1
        · rw [if_pos hex] at hbest
          simp only at hbest
          omega
        · rw [if_neg hex] at hbest
          have := sfpm_match_loop_best_mono opt facts rest
            (r.criterias.length, [r]).1 (r.criterias.length, [r]).2
          simp only at this hbest
          omega
      · rw [if_neg h1] at hbest ⊢
        by_cases h2 : r.criterias.length = best ∧ 0 < best
        · rw [if_pos h2] at hbest ⊢
          have h0b : r0 ∈ acc ++ [r] := List.mem_append.mpr (Or.inl h0)
          by_cases hex : opt = true ∧ sfpm_rule_get_criteria_count r < (best, acc ++ [r]).1
          · rw [if_pos hex]
            exact h0b
          · rw [if_neg hex] at hbest ⊢
            exact ih _ _ r0 h0b hbest
        · rw [if_neg h2] at hbest ⊢
          by_cases hex : opt = true ∧ sfpm_rule_get_criteria_count r < (best, acc).1
          · rw [if_pos hex]
            exact h0
          · rw [if_neg hex] at hbest ⊢
            exact ih _ _ r0 h0 hbest
    · rw [sfpm_match_loop_cons_unmatched opt facts r rest best acc hev] at hbest ⊢
      by_cases hex : opt = true ∧ sfpm_rule_get_criteria_count r < best
      · rw [if_pos hex]
        exact h0
      · rw [if_neg hex] at hbest ⊢
        exact ih _ _ r0 h0 hbest

theorem sfpm_match_loop_complete {π : Type} (opt : Bool) (facts : FactSource) :
    ∀ (l : List (Rule π)) (best : Nat) (acc : List (Rule π)),
      (opt = true →
        l.Pairwise (fun a b => sfpm_rule_get_criteria_count b ≤ sfpm_rule_get_criteria_count a)) →
      ∀ r0 ∈ l, (sfpm_rule_evaluate r0 facts).matched = true →
        sfpm_rule_get_criteria_count r0 ≤ (sfpm_match_loop opt facts l best acc).1
        ∧ (sfpm_rule_get_criteria_count r0 = (sfpm_match_loop opt facts l best acc).1 →
            0 < (sfpm_match_loop opt facts l best acc).1 →
            r0 ∈ (sfpm_match_loop opt facts l best acc).2) := by
  intro l
  induction l with
  | nil => intro best acc _ r0 h0; cases h0
  | cons r rest ih =>
    intro best acc hpw r0 h0mem h0m
    have hpwtail : opt = true →
        rest.Pairwise (fun a b => sfpm_rule_get_criteria_count b ≤ sfpm_rule_get_criteria_count a) :=
      fun ho => (List.pairwise_cons.mp (hpw ho)).2
    rcases List.mem_cons.mp h0mem with h0eq | h0tail
    · subst h0eq
      rcases sfpm_rule_evaluate_cases r0 facts with hev | hev
      · rw [sfpm_match_loop_cons_matched opt facts r0 rest best acc hev]
        by_cases h1 : r0.criterias.length > best
        · rw [if_pos h1]
          by_cases hex : opt = true ∧
              sfpm_rule_get_criteria_count r0 < (r0.criterias.length, [r0]).1
          · exfalso
            have := hex.2
            simp only [sfpm_rule_get_criteria_count] at this
            omega
          · rw [if_neg hex]
            dsimp only
            have hmono := sfpm_match_loop_best_mono opt facts rest r0.criterias.length [r0]
            constructor
            · simpa [sfpm_rule_get_criteria_count] using hmono
            · intro heq _
              refine sfpm_match_loop_preserve opt facts rest _ _ r0 (by simp) ?_
              simp only [sfpm_rule_get_criteria_count] at heq
              omega
        · rw [if_neg h1]
          by_cases h2 : r0.criterias.length = best ∧ 0 < best
          · rw [if_pos h2]
            by_cases hex : opt = true ∧
                sfpm_rule_get_criteria_count r0 < (best, acc ++ [r0]).1
            · exfalso
              have := hex.2
              simp only [sfpm_rule_get_criteria_count] at this
              omega
            · rw [if_neg hex]
              dsimp only
              have hmono := sfpm_match_loop_best_mono opt facts rest best (acc ++ [r0])
              constructor
              · simp only [sfpm_rule_get_criteria_count]
                omega
              · intro heq _
                refine sfpm_match_loop_preserve opt facts rest _ _ r0
                  (List.mem_append.mpr (Or.inr (by simp))) ?_
                simp only [sfpm_rule_get_criteria_count] at heq
                omega
          · rw [if_neg h2]
            have hle : r0.criterias.length ≤ best := by omega
            by_cases hex : opt = true ∧ sfpm_rule_get_criteria_count r0 < (best, acc).1
            · rw [if_pos hex]
              constructor
              · simp only [sfpm_rule_get_criteria_count]
                omega
              · intro heq hpos
                exfalso
                simp only [sfpm_rule_get_criteria_count] at heq
                simp only at heq hpos
                exact h2 ⟨heq, hpos⟩
            · rw [if_neg hex]
              dsimp only
              have hmono := sfpm_match_loop_best_mono opt facts rest best acc
              constructor
              · simp only [sfpm_rule_get_criteria_count]
                omega
              · intro heq hpos
                exfalso
                simp only [sfpm_rule_get_criteria_count] at heq
                have hbb : r0.criterias.length = best := by omega
                have hb0 : ¬0 < best := fun hb => h2 ⟨hbb, hb⟩
                omega
      · exfalso
        rw [hev] at h0m
        simp at h0m
    · rcases sfpm_rule_evaluate_cases r facts with hev | hev
      · rw [sfpm_match_loop_cons_matched opt facts r rest best acc hev]
        by_cases h1 : r.criterias.length > best
        · rw [if_pos h1]
          by_cases hex : opt = true ∧
              sfpm_rule_get_criteria_count r < (r.criterias.length, [r]).1
          · exfalso
            have := hex.2
            simp only [sfpm_rule_get_criteria_count] at this
            omega
          · rw [if_neg hex]
            exact ih _ _ hpwtail r0 h0tail h0m
        · rw [if_neg h1]
          by_cases h2 : r.criterias.length = best ∧ 0 < best
          · rw [if_pos h2]
            by_cases hex : opt = true ∧
                sfpm_rule_get_criteria_count r < (best, acc ++ [r]).1
            · exfalso
              have := hex.2
              simp only [sfpm_rule_get_criteria_count] at this
              omega
            · rw [if_neg hex]
              exact ih _ _ hpwtail r0 h0tail h0m
          · rw [if_neg h2]
            by_cases hex : opt = true ∧ sfpm_rule_get_criteria_count r < (best, acc).1
            · rw [if_pos hex]
              have hh := (List.pairwise_cons.mp (hpw hex.1)).1 r0 h0tail
              have hx2 := hex.2
              simp only at hx2
              constructor
              · simp only
                omega
              · intro heq _
                exfalso
                simp only at heq
                omega
            · rw [if_neg hex]
              exact ih _ _ hpwtail r0 h0tail h0m
      · rw [sfpm_match_loop_cons_unmatched opt facts r rest best acc hev]
        by_cases hex : opt = true ∧ sfpm_rule_get_criteria_count r < best
        · rw [if_pos hex]
          have hh := (List.pairwise_cons.mp (hpw hex.1)).1 r0 h0tail
          have hx2 := hex.2
          constructor
          · simp only
            omega
          · intro heq _
            exfalso
            simp only at heq
            omega
        · rw [if_neg hex]
          exact ih _ _ hpwtail r0 h0tail h0m

theorem priority_fold_spec {π : Type} :
    ∀ (l : List (Rule π)) (init : Int),
      init ≤ l.foldl
          (fun m x => if sfpm_rule_get_priority x > m then sfpm_rule_get_priority x else m) init
      ∧ (∀ x ∈ l, sfpm_rule_get_priority x ≤ l.foldl
          (fun m x => if sfpm_rule_get_priority x > m then sfpm_rule_get_priority x else m) init)
      ∧ (l.foldl
            (fun m x => if sfpm_rule_get_priority x > m then sfpm_rule_get_priority x else m) init
          = init
        ∨ ∃ x ∈ l, l.foldl
            (fun m x => if sfpm_rule_get_priority x > m then sfpm_rule_get_priority x else m) init
          = sfpm_rule_get_priority x) := by
  intro l
  induction l with
  | nil => intro init; refine ⟨le_refl _, ?_, Or.inl rfl⟩; intro x hx; cases hx
  | cons r rest ih =>
    intro init
    rw [List.foldl_cons]
    obtain ⟨ih1, ih2, ih3⟩ :=
      ih (if sfpm_rule_get_priority r > init then sfpm_rule_get_priority r else init)
    have hinit : init ≤ if sfpm_rule_get_priority r > init then sfpm_rule_get_priority r else init := by
      by_cases h : sfpm_rule_get_priority r > init
      · rw [if_pos h]; exact le_of_lt h
      · rw [if_neg h]
    have hr : sfpm_rule_get_priority r
        ≤ if sfpm_rule_get_priority r > init then sfpm_rule_get_priority r else init := by
      by_cases h : sfpm_rule_get_priority r > init
      · rw [if_pos h]
      · rw [if_neg h]; omega
    refine ⟨le_trans hinit ih1, ?_, ?_⟩
    · intro x hx
      rcases List.mem_cons.mp hx with hx | hx
      · subst hx; exact le_trans hr ih1
      · exact ih2 x hx
    · rcases ih3 with h | ⟨x, hx, he⟩
      · by_cases hgt : sfpm_rule_get_priority r > init
        · exact Or.inr ⟨r, by simp, h.trans (if_pos hgt)⟩
        · exact Or.inl (h.trans (if_neg hgt))
      · exact Or.inr ⟨x, List.mem_cons.mpr (Or.inr hx), he⟩

theorem sfpm_match_select_aux {π : Type} (all : List (Rule π)) (k : Nat) (r : Rule π) (hp : Int)
    (hple : ∀ x ∈ all, sfpm_rule_get_priority x ≤ hp)
    (h : (if (all.filter (fun x => sfpm_rule_get_priority x = hp)).length = 1
          then (all.filter (fun x => sfpm_rule_get_priority x = hp)).head?
          else (all.filter (fun x => sfpm_rule_get_priority x = hp)).get?
            (k % (all.filter (fun x => sfpm_rule_get_priority x = hp)).length)) = some r) :
    r ∈ all ∧ ∀ x ∈ all, sfpm_rule_get_priority x ≤ sfpm_rule_get_priority r := by
  have hr_cands : r ∈ all.filter (fun x => sfpm_rule_get_priority x = hp) := by
    by_cases hl : (all.filter (fun x => sfpm_rule_get_priority x = hp)).length = 1
    · rw [if_pos hl] at h
      cases hc : all.filter (fun x => sfpm_rule_get_priority x = hp) with
      | nil => rw [hc] at h; simp at h
      | cons c cs =>
        rw [hc] at h
        simp only [List.head?, Option.some.injEq] at h
        subst h
        exact List.mem_cons_self _ _
    · rw [if_neg hl] at h
      exact List.get?_mem h
  have hmem : r ∈ all := (List.mem_filter.mp hr_cands).1
  have hhp : sfpm_rule_get_priority r = hp := by
    have := (List.mem_filter.mp hr_cands).2
    simpa using this
  refine ⟨hmem, ?_⟩
  intro x hx
  rw [hhp]
  exact hple x hx

theorem sfpm_match_select_spec {π : Type} (acc : List (Rule π)) (k : Nat) (r : Rule π)
    (h : sfpm_match_select_from acc k = some r) :
    r ∈ acc ∧ ∀ x ∈ acc, sfpm_rule_get_priority x ≤ sfpm_rule_get_priority r := by
  cases acc with
  | nil => simp [sfpm_match_select_from] at h
  | cons a rest =>
    by_cases h0 : rest.length = 0
    · have hrest : rest = [] := List.length_eq_zero.mp h0
      subst hrest
      simp [sfpm_match_select_from] at h
      subst h
      refine ⟨List.mem_cons_self _ _, ?_⟩
      intro x hx
      rcases List.mem_cons.mp hx with hx | hx
      · subst hx; exact le_refl _
      · cases hx
    · simp only [sfpm_match_select_from, if_neg h0] at h
      obtain ⟨f1, f2, f3⟩ := priority_fold_spec rest (sfpm_rule_get_priority a)
      refine sfpm_match_select_aux (a :: rest) k r _ ?_ h
      intro x hx
      rcases List.mem_cons.mp hx with hx | hx
      · subst hx; exact f1
      · exact f2 x hx

theorem sfpm_match_core {π : Type} (scanned : List (Rule π)) (facts : FactSource)
    (opt : Bool) (k : Nat) (r : Rule π)
    (hsort : opt = true → scanned.Pairwise
      (fun a b => sfpm_rule_get_criteria_count b ≤ sfpm_rule_get_criteria_count a))
    (hf : sfpm_match_select_from (sfpm_match_loop opt facts scanned 0 []).2 k = some r) :
    (sfpm_rule_evaluate r facts).matched = true
    ∧ (∀ r2 ∈ scanned, (sfpm_rule_evaluate r2 facts).matched = true →
        sfpm_rule_get_criteria_count r2 ≤ sfpm_rule_get_criteria_count r)
    ∧ (∀ r2 ∈ scanned, (sfpm_rule_evaluate r2 facts).matched = true →
        sfpm_rule_get_criteria_count r2 = sfpm_rule_get_criteria_count r →
        sfpm_rule_get_priority r2 ≤ sfpm_rule_get_priority r) := by
  obtain ⟨hmem, hprio⟩ := sfpm_match_select_spec _ k r hf
  have hinv := sfpm_match_loop_inv opt facts scanned 0 []
    (by intro x hx; cases hx) (Or.inr rfl)
  obtain ⟨hm, hcnt⟩ := hinv.1 r hmem
  have hpos : 0 < (sfpm_match_loop opt facts scanned 0 []).1 := by
    rcases hinv.2 with h | h
    · exact h
    · rw [h] at hmem; cases hmem
  refine ⟨hm, ?_, ?_⟩
  · intro r2 h2 hm2
    have hb := (sfpm_match_loop_complete opt facts scanned 0 [] hsort r2 h2 hm2).1
    omega
  · intro r2 h2 hm2 hceq
    have hc2 := (sfpm_match_loop_complete opt facts scanned 0 [] hsort r2 h2 hm2).2
      (by omega) hpos
    exact hprio r2 hc2

theorem sfpm_optimize_rules_sorted {π : Type} (rules : List (Rule π)) :
    (sfpm_optimize_rules rules).Pairwise
      (fun a b => sfpm_rule_get_criteria_count b ≤ sfpm_rule_get_criteria_count a) := by
  unfold sfpm_optimize_rules
  refine List.Pairwise.imp ?_ (List.sorted_mergeSort ?_ ?_ rules)
  · intro a b h
    exact of_decide_eq_true h
  · intro a b c hab hbc
    simp only [decide_eq_true_eq] at hab hbc ⊢
    omega
  · intro a b
    simp only [Bool.or_eq_true, decide_eq_true_eq]
    omega

theorem sfpm_optimize_rules_mem {π : Type} (rules : List (Rule π)) (x : Rule π) :
    x ∈ sfpm_optimize_rules rules ↔ x ∈ rules := by
  unfold sfpm_optimize_rules
  exact (List.mergeSort_perm rules _).mem_iff

/-- C1: whenever `sfpm_match` (with `optimize` true or false) fires a
rule `r`, `r` evaluates as matched, no other matched rule of the array
has a strictly greater criteria count, and among the matched rules
attaining that count `r` has the maximum priority (for any outcome `k`
of the tie-break draw); moreover with `optimize` set, disabling the
early-exit break over the sorted array never changes which rule is
fired. -/
theorem sfpm_match_fires_most_specific :
    (∀ (π : Type) (rules : List (Rule π)) (facts : FactSource) (optimize : Bool) (k : Nat)
        (r : Rule π),
      sfpm_match_fired rules facts optimize k = some r →
        (sfpm_rule_evaluate r facts).matched = true
        ∧ (∀ r2 ∈ rules, (sfpm_rule_evaluate r2 facts).matched = true →
            sfpm_rule_get_criteria_count r2 ≤ sfpm_rule_get_criteria_count r)
        ∧ (∀ r2 ∈ rules, (sfpm_rule_evaluate r2 facts).matched = true →
            sfpm_rule_get_criteria_count r2 = sfpm_rule_get_criteria_count r →
            sfpm_rule_get_priority r2 ≤ sfpm_rule_get_priority r))
    ∧ (∀ (π : Type) (rules : List (Rule π)) (facts : FactSource) (k : Nat),
        sfpm_match_fired rules facts true k = sfpm_match_fired_no_early_exit rules facts k) := by
  constructor
  · intro π rules facts optimize k r hf
    cases optimize with
    | false =>
      have hf2 : sfpm_match_select_from (sfpm_match_loop false facts rules 0 []).2 k = some r := hf
      exact sfpm_match_core rules facts false k r
        (fun h => absurd h Bool.false_ne_true) hf2
    | true =>
      have hf2 : sfpm_match_select_from
          (sfpm_match_loop true facts (sfpm_optimize_rules rules) 0 []).2 k = some r := hf
      obtain ⟨h1, h2, h3⟩ := sfpm_match_core (sfpm_optimize_rules rules) facts true k r
        (fun _ => sfpm_optimize_rules_sorted rules) hf2
      refine ⟨h1, ?_, ?_⟩
      · intro r2 hr2 hm2
        exact h2 r2 ((sfpm_optimize_rules_mem rules r2).mpr hr2) hm2
      · intro r2 hr2 hm2 hceq
        exact h3 r2 ((sfpm_optimize_rules_mem rules r2).mpr hr2) hm2 hceq
  · intro π rules facts k
    show sfpm_match_select_from
        (sfpm_match_loop true facts (sfpm_optimize_rules rules) 0 []).2 k
      = sfpm_match_select_from
        (sfpm_match_loop false facts (sfpm_optimize_rules rules) 0 []).2 k
    rw [sfpm_match_loop_early_exit_eq facts (sfpm_optimize_rules rules) 0 []
      (sfpm_optimize_rules_sorted rules)]

/-- Witness for C1 at spec scenario 2: over facts `{a: 1, b: 2}`,
matching `[rule_a, rule_ab]` fires `rule_ab` (optimize false, draw 0),
and the optimized match equals the match without the early-exit
break. -/
theorem sfpm_match_fires_most_specific_witness :
    ((sfpm_rule_evaluate rule_ab facts_ab).matched = true
      ∧ (∀ r2 ∈ [rule_a, rule_ab], (sfpm_rule_evaluate r2 facts_ab).matched = true →
          sfpm_rule_get_criteria_count r2 ≤ sfpm_rule_get_criteria_count rule_ab)
      ∧ (∀ r2 ∈ [rule_a, rule_ab], (sfpm_rule_evaluate r2 facts_ab).matched = true →
          sfpm_rule_get_criteria_count r2 = sfpm_rule_get_criteria_count rule_ab →
          sfpm_rule_get_priority r2 ≤ sfpm_rule_get_priority rule_ab))
    ∧ sfpm_match_fired [rule_a, rule_ab] facts_ab true 0
        = sfpm_match_fired_no_early_exit [rule_a, rule_ab] facts_ab 0 :=
  ⟨sfpm_match_fires_most_specific.1 Nat [rule_a, rule_ab] facts_ab false 0 rule_ab rfl,
   sfpm_match_fires_most_specific.2 Nat [rule_a, rule_ab] facts_ab 0⟩

theorem compare_int_eq_zero_iff (a b : Int) : compare_int a b = 0 ↔ a = b :=
  (three_way_spec a b).1

theorem eval_opcode_rule (op v : Nat) :
    sfpm_rule_evaluate (create_opcode_rule op)
      (dict_try_get [("opcode", .intVal (Int.ofNat v))])
      = if op = v then ⟨true, 1⟩ else ⟨false, 0⟩ := by
  by_cases h : op = v
  · subst h
    have hz : compare_int (op : Int) (op : Int) = 0 :=
      (compare_int_eq_zero_iff _ _).mpr rfl
    simp [sfpm_rule_evaluate, create_opcode_rule, eval_criteria_list, sfpm_criteria_evaluate,
      dict_try_get, evaluate_comparison, sfpm_apply_operator, hz]
  · have hnz : ¬compare_int (v : Int) (op : Int) = 0 := by
      rw [compare_int_eq_zero_iff]
      intro hh
      exact h (by exact_mod_cast hh.symm)
    simp [sfpm_rule_evaluate, create_opcode_rule, eval_criteria_list, sfpm_criteria_evaluate,
      dict_try_get, evaluate_comparison, sfpm_apply_operator, hnz, h]

theorem sfpm_match_loop_oprules_skip (v : Nat) :
    ∀ (ops : List Nat), v ∉ ops → ∀ (best : Nat) (acc : List (Rule Nat)),
      sfpm_match_loop false (dict_try_get [("opcode", .intVal (Int.ofNat v))])
        (ops.map create_opcode_rule) best acc = (best, acc) := by
  intro ops
  induction ops with
  | nil => intro _ best acc; rfl
  | cons op rest ih =>
    intro hnv best acc
    have hop : ¬op = v := fun hh => hnv (by simp [hh])
    have hev : sfpm_rule_evaluate (create_opcode_rule op)
        (dict_try_get [("opcode", .intVal (Int.ofNat v))]) = ⟨false, 0⟩ := by
      rw [eval_opcode_rule, if_neg hop]
    rw [List.map_cons,
      sfpm_match_loop_cons_unmatched false _ (create_opcode_rule op) _ best acc hev,
      if_neg (by simp)]
    exact ih (fun hh => hnv (by simp [hh])) best acc

theorem sfpm_match_loop_oprules (v : Nat) :
    ∀ (ops : List Nat), ops.Nodup →
      sfpm_match_loop false (dict_try_get [("opcode", .intVal (Int.ofNat v))])
        (ops.map create_opcode_rule) 0 []
      = if v ∈ ops then (1, [create_opcode_rule v]) else (0, []) := by
  intro ops
  induction ops with
  | nil => intro _; rw [if_neg (by simp)]; rfl
  | cons op rest ih =>
    intro hnd
    rw [List.map_cons]
    by_cases h : op = v
    · subst h
      have hev : sfpm_rule_evaluate (create_opcode_rule op)
          (dict_try_get [("opcode", .intVal (Int.ofNat op))])
          = ⟨true, (create_opcode_rule op).criterias.length⟩ := by
        rw [eval_opcode_rule, if_pos rfl]
        rfl
      rw [sfpm_match_loop_cons_matched false _ (create_opcode_rule op) _ 0 [] hev]
      rw [if_pos (by simp [create_opcode_rule] : (create_opcode_rule op).criterias.length > 0)]
      rw [if_neg (by simp)]
      rw [if_pos (List.mem_cons_self op rest)]
      exact sfpm_match_loop_oprules_skip op rest (List.nodup_cons.mp hnd).1
        (create_opcode_rule op).criterias.length [create_opcode_rule op]
    · have hev : sfpm_rule_evaluate (create_opcode_rule op)
          (dict_try_get [("opcode", .intVal (Int.ofNat v))]) = ⟨false, 0⟩ := by
        rw [eval_opcode_rule, if_neg h]
      rw [sfpm_match_loop_cons_unmatched false _ (create_opcode_rule op) _ 0 [] hev,
        if_neg (by simp)]
      rw [ih (List.nodup_cons.mp hnd).2]
      by_cases hv : v ∈ rest
      · rw [if_pos hv, if_pos (List.mem_cons.mpr (Or.inr hv))]
      · rw [if_neg hv, if_neg ?_]
        intro hm
        rcases List.mem_cons.mp hm with hh | hh
        · exact h hh.symm
        · exact hv hh

theorem sfpm_match_fired_oprules (v : Nat) (ops : List Nat) (hnd : ops.Nodup) (k : Nat) :
    sfpm_match_fired (ops.map create_opcode_rule)
      (dict_try_get [("opcode", .intVal (Int.ofNat v))]) false k
      = if v ∈ ops then some (create_opcode_rule v) else none := by
  show sfpm_match_select_from
      (sfpm_match_loop false (dict_try_get [("opcode", .intVal (Int.ofNat v))])
        (ops.map create_opcode_rule) 0 []).2 k = _
  rw [sfpm_match_loop_oprules v ops hnd]
  by_cases hv : v ∈ ops
  · rw [if_pos hv, if_pos hv]
    rfl
  · rw [if_neg hv, if_neg hv]
    rfl

theorem sfpm_match_events_oprules (v : Nat) (ops : List Nat) (hnd : ops.Nodup) (k : Nat) :
    sfpm_match_events (ops.map create_opcode_rule)
      (dict_try_get [("opcode", .intVal (Int.ofNat v))]) false k
      = if v ∈ ops then [RuleEvent.payloadCall v] else [] := by
  unfold sfpm_match_events
  rw [sfpm_match_fired_oprules v ops hnd k]
  by_cases hv : v ∈ ops
  · rw [if_pos hv, if_pos hv]
    rfl
  · rw [if_neg hv, if_neg hv]

theorem tiered_execute_cached_uncached (s t : TieredState) (vm : VMState) (i : Instr) (k : Nat)
    (hinv : tiered_inv s) (hsm : s.mode = .cached) (htm : t.mode = .uncached)
    (hrc : s.rule_cache = t.rule_cache) (hh : s.handlers = t.handlers)
    (har : s.all_rules = t.all_rules)
    (hreg : s.rule_cache i.op = true) :
    tiered_execute_instruction s vm i k =
      some ({ s with
              operand_slots := fun x => if x = i.op then i.operand else s.operand_slots x,
              cached_dispatches := s.cached_dispatches + 1 },
            s.handlers i.op vm i.operand, [(i.op, i.operand)])
    ∧ tiered_execute_instruction t vm i k =
      some ({ t with
              operand_slots := fun x => if x = i.op then i.operand else t.operand_slots x,
              uncached_dispatches := t.uncached_dispatches + 1 },
            s.handlers i.op vm i.operand, [(i.op, i.operand)]) := by
  constructor
  · unfold tiered_execute_instruction
    rw [if_pos hsm, if_pos hreg]
    have hev : sfpm_rule_execute_payload (create_opcode_rule i.op)
        = [RuleEvent.payloadCall i.op] := rfl
    rw [hev]
    simp [apply_rule_events]
  · unfold tiered_execute_instruction
    rw [if_neg (by rw [htm]; intro hc; cases hc)]
    have hmem : i.op ∈ t.all_rules := by
      rw [← har]
      exact (hinv.2 i.op).mp hreg
    have hnd : t.all_rules.Nodup := har ▸ hinv.1
    have hevs := sfpm_match_events_oprules i.op t.all_rules hnd k
    rw [if_pos hmem] at hevs
    simp only [hevs]
    simp [apply_rule_events, hh]

/-- C3 amended: for every program, fuel bound, VM and tiered state
satisfying the flat-array invariant, running in cached mode and in
uncached mode (same rule cache, handlers, operand slots and flat
array) produces the same payload observation sequence and the same
final VM, provided the cached run does not abort on an unregistered
opcode (the fatal `exit(1)` path); the states differ afterwards only
in the mode and dispatch counters. -/
theorem tiered_dispatch_equivalence :
    ∀ (fuel : Nat) (prog : List Instr) (s t : TieredState) (vm : VMState) (k : Nat),
      tiered_inv s → s.mode = .cached → t.mode = .uncached →
      s.rule_cache = t.rule_cache → s.handlers = t.handlers →
      s.operand_slots = t.operand_slots → s.all_rules = t.all_rules →
      (tiered_run_program fuel s vm prog k).2.2.2 = true →
      (tiered_run_program fuel t vm prog k).2.2.1 = (tiered_run_program fuel s vm prog k).2.2.1
      ∧ (tiered_run_program fuel t vm prog k).2.1 = (tiered_run_program fuel s vm prog k).2.1 := by
  intro fuel
  induction fuel with
  | zero => intro prog s t vm k _ _ _ _ _ _ _ _; exact ⟨rfl, rfl⟩
  | succ fuel ih =>
    intro prog s t vm k hinv hsm htm hrc hhand hos har hok
    by_cases hcond : vm.pc < prog.length ∧ vm.halted = false
    · rw [show tiered_run_program (fuel + 1) s vm prog k =
          (if vm.pc < prog.length ∧ vm.halted = false then
            match tiered_execute_instruction s { vm with pc := vm.pc + 1 }
                (prog.getD vm.pc default) k with
            | none => (s, { vm with pc := vm.pc + 1 }, [], false)
            | some (s2, vm2, tr) =>
              ((tiered_run_program fuel s2 vm2 prog k).1,
                (tiered_run_program fuel s2 vm2 prog k).2.1,
                tr ++ (tiered_run_program fuel s2 vm2 prog k).2.2.1,
                (tiered_run_program fuel s2 vm2 prog k).2.2.2)
          else (s, vm, [], true)) from rfl] at hok ⊢
      rw [show tiered_run_program (fuel + 1) t vm prog k =
          (if vm.pc < prog.length ∧ vm.halted = false then
            match tiered_execute_instruction t { vm with pc := vm.pc + 1 }
                (prog.getD vm.pc default) k with
            | none => (t, { vm with pc := vm.pc + 1 }, [], false)
            | some (t2, vm2, tr) =>
              ((tiered_run_program fuel t2 vm2 prog k).1,
                (tiered_run_program fuel t2 vm2 prog k).2.1,
                tr ++ (tiered_run_program fuel t2 vm2 prog k).2.2.1,
                (tiered_run_program fuel t2 vm2 prog k).2.2.2)
          else (t, vm, [], true)) from rfl]
      rw [if_pos hcond] at hok
      rw [if_pos hcond, if_pos hcond]
      by_cases hreg : s.rule_cache (prog.getD vm.pc default).op = true
      · obtain ⟨hcs, hct⟩ := tiered_execute_cached_uncached s t { vm with pc := vm.pc + 1 }
          (prog.getD vm.pc default) k hinv hsm htm hrc hhand har hreg
        rw [hcs] at hok ⊢
        rw [hct]
        dsimp only at hok ⊢
        have hinv2 : tiered_inv { s with
            operand_slots := fun x =>
              if x = (prog.getD vm.pc default).op then (prog.getD vm.pc default).operand
              else s.operand_slots x,
            cached_dispatches := s.cached_dispatches + 1 } := hinv
        have hrec := ih prog
          { s with
            operand_slots := fun x =>
              if x = (prog.getD vm.pc default).op then (prog.getD vm.pc default).operand
              else s.operand_slots x,
            cached_dispatches := s.cached_dispatches + 1 }
          { t with
            operand_slots := fun x =>
              if x = (prog.getD vm.pc default).op then (prog.getD vm.pc default).operand
              else t.operand_slots x,
            uncached_dispatches := t.uncached_dispatches + 1 }
          (s.handlers (prog.getD vm.pc default).op { vm with pc := vm.pc + 1 }
            (prog.getD vm.pc default).operand) k
          hinv2 hsm htm hrc hhand (by rw [hos]) har hok
        exact ⟨by rw [hrec.1], hrec.2⟩
      · exfalso
        have hnone : tiered_execute_instruction s { vm with pc := vm.pc + 1 }
            (prog.getD vm.pc default) k = none := by
          unfold tiered_execute_instruction
          rw [if_pos hsm, if_neg hreg]
        rw [hnone] at hok
        simp at hok
    · rw [show tiered_run_program (fuel + 1) s vm prog k = (s, vm, [], true) from by
          rw [show tiered_run_program (fuel + 1) s vm prog k =
              (if vm.pc < prog.length ∧ vm.halted = false then
                match tiered_execute_instruction s { vm with pc := vm.pc + 1 }
                    (prog.getD vm.pc default) k with
                | none => (s, { vm with pc := vm.pc + 1 }, [], false)
                | some (s2, vm2, tr) =>
                  ((tiered_run_program fuel s2 vm2 prog k).1,
                    (tiered_run_program fuel s2 vm2 prog k).2.1,
                    tr ++ (tiered_run_program fuel s2 vm2 prog k).2.2.1,
                    (tiered_run_program fuel s2 vm2 prog k).2.2.2)
              else (s, vm, [], true)) from rfl]
          rw [if_neg hcond]]
      rw [show tiered_run_program (fuel + 1) t vm prog k = (t, vm, [], true) from by
          rw [show tiered_run_program (fuel + 1) t vm prog k =
              (if vm.pc < prog.length ∧ vm.halted = false then
                match tiered_execute_instruction t { vm with pc := vm.pc + 1 }
                    (prog.getD vm.pc default) k with
                | none => (t, { vm with pc := vm.pc + 1 }, [], false)
                | some (t2, vm2, tr) =>
                  ((tiered_run_program fuel t2 vm2 prog k).1,
                    (tiered_run_program fuel t2 vm2 prog k).2.1,
                    tr ++ (tiered_run_program fuel t2 vm2 prog k).2.2.1,
                    (tiered_run_program fuel t2 vm2 prog k).2.2.2)
              else (t, vm, [], true)) from rfl]
          rw [if_neg hcond]]
      exact ⟨rfl, rfl⟩

/-- C3 counterexample: with only opcode 1 registered, the program
`[{op 5}, {op 1, operand 7}]` dispatches differently by mode: cached
mode hits the fatal unknown-opcode error at opcode 5 and observes no
payload, while uncached mode silently skips opcode 5 and then fires
the opcode-1 payload — the two observable payload sequences differ. -/
theorem tiered_dispatch_modes_differ_on_unknown_opcode :
    (tiered_run_program 2 state_op1 vm_init prog_unknown_then_push 0).2.2.1
      ≠ (tiered_run_program 2 { state_op1 with mode := .uncached }
          vm_init prog_unknown_then_push 0).2.2.1
    ∧ (tiered_run_program 2 state_op1 vm_init prog_unknown_then_push 0).2.2.2 = false := by
  constructor
  · intro h
    have h1 : (tiered_run_program 2 state_op1 vm_init prog_unknown_then_push 0).2.2.1
        = [] := rfl
    have h2 : (tiered_run_program 2 { state_op1 with mode := .uncached }
        vm_init prog_unknown_then_push 0).2.2.1 = [(1, 7)] := rfl
    rw [h1, h2] at h
    cases h
  · rfl

/-- Witness for the amended C3 at `state_op1` and program `[{op 1,
operand 7}]`: both modes observe the payload sequence `[(1, 7)]` and
agree on the final VM. -/
theorem tiered_dispatch_equivalence_witness :
    ((tiered_run_program 1 { state_op1 with mode := .uncached } vm_init
        [⟨1, 7⟩] 0).2.2.1
      = (tiered_run_program 1 state_op1 vm_init [⟨1, 7⟩] 0).2.2.1)
    ∧ ((tiered_run_program 1 { state_op1 with mode := .uncached } vm_init
        [⟨1, 7⟩] 0).2.1
      = (tiered_run_program 1 state_op1 vm_init [⟨1, 7⟩] 0).2.1) := by
  refine tiered_dispatch_equivalence 1 [⟨1, 7⟩] state_op1
    { state_op1 with mode := .uncached } vm_init 0 ⟨?_, ?_⟩ rfl rfl rfl rfl rfl rfl ?_
  · decide
  · intro op
    simp [state_op1]
  · rfl

theorem le_bytes_length (w n : Nat) : (le_bytes w n).length = w := by
  induction w generalizing n with
  | zero => rfl
  | succ w ih => simp [le_bytes, ih]

theorem nat_of_le_bytes_le_bytes (w n : Nat) :
    nat_of_le_bytes (le_bytes w n) = n % 256 ^ w := by
  induction w generalizing n with
  | zero => simp [le_bytes, nat_of_le_bytes, Nat.mod_one]
  | succ w ih =>
    rw [le_bytes, nat_of_le_bytes, ih]
    rw [pow_succ]
    rw [mul_comm (256 ^ w) 256]
    rw [Nat.mod_mul]

theorem read_bytes_exact (l rest : List Nat) (n : Nat) (h : l.length = n) :
    read_bytes n (l ++ rest) = some (l, rest) := by
  subst h
  unfold read_bytes
  rw [if_pos (by simp)]
  rw [List.take_left, List.drop_left]

theorem read_le_nat_le_bytes (w n : Nat) (rest : List Nat) :
    read_le_nat w (le_bytes w n ++ rest) = some (n % 256 ^ w, rest) := by
  unfold read_le_nat
  rw [read_bytes_exact _ _ w (le_bytes_length w n)]
  dsimp only
  rw [nat_of_le_bytes_le_bytes]

theorem read_le_nat_le_bytes_of_lt (w n : Nat) (h : n < 256 ^ w) (rest : List Nat) :
    read_le_nat w (le_bytes w n ++ rest) = some (n, rest) := by
  rw [read_le_nat_le_bytes, Nat.mod_eq_of_lt h]

theorem pad_description_length (d : List Nat) : (pad_description d).length = 256 := by
  unfold pad_description
  rw [List.length_append, List.length_replicate]
  have : (d.take 255).length ≤ 255 := by
    rw [List.length_take]
    omega
  omega

theorem map_snd_zip_eq {α β : Type} (l1 : List α) (l2 : List β) (h : l1.length = l2.length) :
    (l1.zip l2).map Prod.snd = l2 := by
  induction l1 generalizing l2 with
  | nil => cases l2 with
    | nil => rfl
    | cons b bs => simp at h
  | cons a as ih =>
    cases l2 with
    | nil => simp at h
    | cons b bs =>
      simp only [List.zip_cons_cons, List.map_cons]
      rw [ih bs (by simpa using h)]

theorem read_le_nat_one (x : Nat) (rest : List Nat) :
    read_le_nat 1 (x :: rest) = some (x, rest) := by
  unfold read_le_nat read_bytes
  rw [if_pos (by simp)]
  simp [nat_of_le_bytes]

theorem save_region_records_cons (reg : MemRegion) (c : List Nat)
    (l : List (MemRegion × List Nat)) :
    save_region_records ((reg, c) :: l)
      = le_bytes 8 reg.size ++ ([if reg.is_dynamic then 1 else 0]
        ++ (le_bytes 4 reg.name.length ++ (reg.name ++ (c ++ save_region_records l)))) := by
  simp [save_region_records, List.append_assoc]

theorem restore_regions_cons_step (reg : MemRegion) (c : List Nat) (reg2 : MemRegion)
    (c0 : List Nat) (zipped : List (MemRegion × List Nat)) (recs : List Nat)
    (hb8 : reg.size < 2 ^ 64) (hb4 : reg.name.length < 2 ^ 32)
    (hc : c.length = reg.size) (hs2 : reg2.size = reg.size) (hc0 : c0.length = reg2.size) :
    restore_regions ((reg2, c0) :: zipped)
      (le_bytes 8 reg.size ++ ([if reg.is_dynamic then 1 else 0]
        ++ (le_bytes 4 reg.name.length ++ (reg.name ++ (c ++ recs)))))
      = ((restore_regions zipped recs).1, c :: (restore_regions zipped recs).2) := by
  have hb8v : reg.size < 256 ^ 8 := by
    have : (2 : Nat) ^ 64 = 256 ^ 8 := by norm_num
    omega
  have hb4v : reg.name.length < 256 ^ 4 := by
    have : (2 : Nat) ^ 32 = 256 ^ 4 := by norm_num
    omega
  rw [restore_regions]
  rw [read_le_nat_le_bytes_of_lt 8 reg.size hb8v]
  dsimp only
  rw [List.singleton_append]
  rw [read_le_nat_one]
  dsimp only
  rw [read_le_nat_le_bytes_of_lt 4 reg.name.length hb4v]
  dsimp only
  rw [List.drop_left]
  rw [if_pos hs2.symm]
  have hlen : reg2.size ≤ (c ++ recs).length := by
    rw [List.length_append]
    omega
  rw [if_pos hlen]
  have htake : (c ++ recs).take reg2.size = c := by
    rw [hs2, ← hc, List.take_left]
  have hdrop : (c ++ recs).drop reg2.size = recs := by
    rw [hs2, ← hc, List.drop_left]
  have hdrop0 : c0.drop reg2.size = [] := by
    rw [← hc0, List.drop_length]
  rw [htake, hdrop, hdrop0, List.append_nil]

theorem restore_regions_cons_mismatch (reg : MemRegion) (c : List Nat) (reg2 : MemRegion)
    (c0 : List Nat) (zipped : List (MemRegion × List Nat)) (recs : List Nat)
    (hb8 : reg.size < 2 ^ 64) (hb4 : reg.name.length < 2 ^ 32)
    (hne : ¬reg.size = reg2.size) :
    restore_regions ((reg2, c0) :: zipped)
      (le_bytes 8 reg.size ++ ([if reg.is_dynamic then 1 else 0]
        ++ (le_bytes 4 reg.name.length ++ (reg.name ++ (c ++ recs)))))
      = (false, c0 :: zipped.map Prod.snd) := by
  have hb8v : reg.size < 256 ^ 8 := by
    have : (2 : Nat) ^ 64 = 256 ^ 8 := by norm_num
    omega
  have hb4v : reg.name.length < 256 ^ 4 := by
    have : (2 : Nat) ^ 32 = 256 ^ 4 := by norm_num
    omega
  rw [restore_regions]
  rw [read_le_nat_le_bytes_of_lt 8 reg.size hb8v]
  dsimp only
  rw [List.singleton_append]
  rw [read_le_nat_one]
  dsimp only
  rw [read_le_nat_le_bytes_of_lt 4 reg.name.length hb4v]
  dsimp only
  rw [List.drop_left]
  rw [if_neg hne]

theorem restore_regions_save :
    ∀ (regs1 : List MemRegion) (mems1 : List (List Nat))
      (regs : List MemRegion) (mems : List (List Nat)),
      mems1.length = regs1.length →
      regs.length = regs1.length →
      mems.length = regs1.length →
      regs.map MemRegion.size = regs1.map MemRegion.size →
      (∀ p ∈ regs1.zip mems1, p.2.length = p.1.size) →
      (∀ p ∈ regs.zip mems, p.2.length = p.1.size) →
      (∀ reg ∈ regs1, reg.size < 2 ^ 64 ∧ reg.name.length < 2 ^ 32) →
      restore_regions (regs.zip mems) (save_region_records (regs1.zip mems1))
        = (true, mems1) := by
  intro regs1
  induction regs1 with
  | nil =>
    intro mems1 regs mems h1 h2 h3 _ _ _ _
    have hm1 : mems1 = [] := List.length_eq_zero.mp h1
    have hr : regs = [] := List.length_eq_zero.mp h2
    have hm : mems = [] := List.length_eq_zero.mp h3
    subst hm1; subst hr; subst hm
    rfl
  | cons reg regs1t ih =>
    intro mems1 regs mems h1 h2 h3 hsz hm1 hm hb
    cases mems1 with
    | nil => simp at h1
    | cons c mems1t =>
      cases regs with
      | nil => simp at h2
      | cons reg2 regst =>
        cases mems with
        | nil => simp at h3
        | cons c0 memst =>
          have hsz2 : reg2.size = reg.size
              ∧ regst.map MemRegion.size = regs1t.map MemRegion.size := by
            simpa using hsz
          rw [List.zip_cons_cons, List.zip_cons_cons, save_region_records_cons]
          rw [restore_regions_cons_step reg c reg2 c0 (regst.zip memst)
            (save_region_records (regs1t.zip mems1t))
            (hb reg (by simp)).1 (hb reg (by simp)).2
            (hm1 (reg, c) (by simp))
            hsz2.1
            (hm (reg2, c0) (by simp))]
          rw [ih mems1t regst memst (by simpa using h1) (by simpa using h2)
            (by simpa using h3)
            hsz2.2
            (fun p hp => hm1 p (by simp [hp]))
            (fun p hp => hm p (by simp [hp]))
            (fun r hr => hb r (by simp [hr]))]

theorem restore_regions_mismatch :
    ∀ (i : Nat) (regs1 : List MemRegion) (mems1 : List (List Nat))
      (regs : List MemRegion) (mems : List (List Nat)),
      mems1.length = regs1.length →
      regs.length = regs1.length →
      mems.length = regs1.length →
      (∀ p ∈ regs1.zip mems1, p.2.length = p.1.size) →
      (∀ p ∈ regs.zip mems, p.2.length = p.1.size) →
      (∀ reg ∈ regs1, reg.size < 2 ^ 64 ∧ reg.name.length < 2 ^ 32) →
      (∀ j, j < i → (regs.get? j).map MemRegion.size = (regs1.get? j).map MemRegion.size) →
      (∀ r1 r, regs1.get? i = some r1 → regs.get? i = some r → ¬r1.size = r.size) →
      i < regs1.length →
      (restore_regions (regs.zip mems) (save_region_records (regs1.zip mems1))).1 = false
      ∧ (restore_regions (regs.zip mems) (save_region_records (regs1.zip mems1))).2.drop i
          = mems.drop i := by
  intro i
  induction i with
  | zero =>
    intro regs1 mems1 regs mems h1 h2 h3 hm1 hm hb _ hmis hi
    cases regs1 with
    | nil => simp at hi
    | cons r1 t1 =>
      cases mems1 with
      | nil => simp at h1
      | cons c1 m1t =>
        cases regs with
        | nil => simp at h2
        | cons r rt =>
          cases mems with
          | nil => simp at h3
          | cons c mt =>
            have hne : ¬r1.size = r.size := hmis r1 r (by simp) (by simp)
            rw [List.zip_cons_cons, List.zip_cons_cons, save_region_records_cons]
            rw [restore_regions_cons_mismatch r1 c1 r c (rt.zip mt)
              (save_region_records (t1.zip m1t))
              (hb r1 (by simp)).1 (hb r1 (by simp)).2 hne]
            refine ⟨rfl, ?_⟩
            rw [List.drop_zero, List.drop_zero]
            rw [map_snd_zip_eq rt mt (by simp at h2 h3; omega)]
  | succ i ih =>
    intro regs1 mems1 regs mems h1 h2 h3 hm1 hm hb hpre hmis hi
    cases regs1 with
    | nil => simp at hi
    | cons r1 t1 =>
      cases mems1 with
      | nil => simp at h1
      | cons c1 m1t =>
        cases regs with
        | nil => simp at h2
        | cons r rt =>
          cases mems with
          | nil => simp at h3
          | cons c mt =>
            have hhead : r.size = r1.size := by
              have h0 := hpre 0 (Nat.succ_pos i)
              simpa using h0
            have hc0 : c.length = r.size := hm (r, c) (by simp)
            rw [List.zip_cons_cons, List.zip_cons_cons, save_region_records_cons]
            rw [restore_regions_cons_step r1 c1 r c (rt.zip mt)
              (save_region_records (t1.zip m1t))
              (hb r1 (by simp)).1 (hb r1 (by simp)).2
              (hm1 (r1, c1) (by simp)) hhead hc0]
            have hrec := ih t1 m1t rt mt (by simpa using h1) (by simpa using h2)
              (by simpa using h3)
              (fun p hp => hm1 p (by simp [hp]))
              (fun p hp => hm p (by simp [hp]))
              (fun x hx => hb x (by simp [hx]))
              (fun j hj => by
                have := hpre (j + 1) (by omega)
                simpa using this)
              (fun x1 x hx1 hx => hmis x1 x (by simpa using hx1) (by simpa using hx))
              (by simpa using hi)
            refine ⟨hrec.1, ?_⟩
            rw [List.drop_succ_cons, List.drop_succ_cons]
            exact hrec.2

theorem sfpm_snapshot_restore_bad_magic (m : Nat) (tail : List Nat)
    (snap : Snapshot) (mem : List (List Nat))
    (hm : m < 256 ^ 4) (hne : m ≠ SFPM_SNAPSHOT_MAGIC) :
    sfpm_snapshot_restore (le_bytes 4 m ++ tail) snap mem = (false, mem) := by
  unfold sfpm_snapshot_restore
  rw [read_le_nat_le_bytes_of_lt 4 m hm]
  dsimp only
  rw [if_pos hne]

theorem sfpm_snapshot_restore_header (v ts tot nr : Nat) (d rest : List Nat)
    (snap : Snapshot) (mem : List (List Nat))
    (hv : v < 256 ^ 4) (hnr : nr < 256 ^ 4) (hd : d.length = 256) :
    sfpm_snapshot_restore
      (le_bytes 4 SFPM_SNAPSHOT_MAGIC ++ le_bytes 4 v ++ le_bytes 8 ts ++ le_bytes 8 tot
        ++ le_bytes 4 nr ++ d ++ rest) snap mem
      = if v ≠ SFPM_SNAPSHOT_VERSION then (false, mem)
        else if nr ≠ snap.regions.length then (false, mem)
        else restore_regions (snap.regions.zip mem) rest := by
  unfold sfpm_snapshot_restore
  simp only [List.append_assoc]
  rw [read_le_nat_le_bytes_of_lt 4 SFPM_SNAPSHOT_MAGIC (by norm_num [SFPM_SNAPSHOT_MAGIC])]
  dsimp only
  rw [if_neg (by intro h; exact h rfl)]
  rw [read_le_nat_le_bytes_of_lt 4 v hv]
  dsimp only
  rw [read_le_nat_le_bytes]
  dsimp only
  rw [read_le_nat_le_bytes]
  dsimp only
  rw [read_le_nat_le_bytes_of_lt 4 nr hnr]
  dsimp only
  rw [read_bytes_exact d rest 256 hd]

/-- C4: saving a snapshot of caller memory and restoring the file into
a descriptor declaring the same number of regions with the same sizes
(over any prior contents of those regions, e.g. zeroed) reproduces the
original bytes of every region exactly, and restore returns true. -/
theorem snapshot_save_restore_roundtrip (snap : Snapshot) (mem : List (List Nat))
    (t : Nat) (snap2 : Snapshot) (mem0 : List (List Nat))
    (hwf : snapshot_wf snap mem)
    (hsz : snap2.regions.map MemRegion.size = snap.regions.map MemRegion.size)
    (hlen0 : mem0.length = snap.regions.length)
    (hm0 : ∀ p ∈ snap2.regions.zip mem0, p.2.length = p.1.size) :
    sfpm_snapshot_restore (sfpm_snapshot_save snap mem t) snap2 mem0 = (true, mem) := by
  obtain ⟨hcount, hmlen, hm, hb⟩ := hwf
  have hcount2 : snap2.regions.length = snap.regions.length := by
    have := congrArg List.length hsz
    simpa using this
  unfold sfpm_snapshot_save
  rw [sfpm_snapshot_restore_header SFPM_SNAPSHOT_VERSION t (snapshot_total_size snap)
    snap.regions.length (pad_description snap.description)
    (save_region_records (snap.regions.zip mem)) snap2 mem0
    (by norm_num [SFPM_SNAPSHOT_VERSION])
    (by have h32 : (2 : Nat) ^ 32 = 256 ^ 4 := by norm_num
        rw [← h32]; exact hcount)
    (pad_description_length snap.description)]
  rw [if_neg (by intro h; exact h rfl)]
  rw [if_neg (by omega)]
  exact restore_regions_save snap.regions mem snap2.regions mem0
    hmlen hcount2 (by omega) hsz hm hm0 hb

/-- Witness for C4: one 2-byte region holding `[7, 9]`, restored over
the zeroed layout `[[0, 0]]`. -/
theorem snapshot_save_restore_roundtrip_witness :
    sfpm_snapshot_restore (sfpm_snapshot_save snap_two [[7, 9]] 0) snap_two [[0, 0]]
      = (true, [[7, 9]]) :=
  snapshot_save_restore_roundtrip snap_two [[7, 9]] 0 snap_two [[0, 0]]
    ⟨by decide, rfl, by decide, by decide⟩ rfl rfl (by decide)

/-- C5: restore returns false when the leading magic differs from
`0x5346504D`, when the stored version differs from 1, when the stored
`num_regions` differs from the target descriptor's region count, and
when some region record's stored size differs from the corresponding
declared region size — and in that last case the caller memory of the
first mismatching region and of every later region is left
unmodified. -/
theorem snapshot_restore_rejections :
    (∀ (m : Nat) (tail : List Nat) (snap : Snapshot) (mem : List (List Nat)),
      m < 2 ^ 32 → m ≠ SFPM_SNAPSHOT_MAGIC →
      sfpm_snapshot_restore (le_bytes 4 m ++ tail) snap mem = (false, mem))
    ∧ (∀ (v ts tot nr : Nat) (d rest : List Nat) (snap : Snapshot) (mem : List (List Nat)),
      v < 2 ^ 32 → nr < 2 ^ 32 → d.length = 256 → v ≠ 1 →
      sfpm_snapshot_restore
        (le_bytes 4 SFPM_SNAPSHOT_MAGIC ++ le_bytes 4 v ++ le_bytes 8 ts ++ le_bytes 8 tot
          ++ le_bytes 4 nr ++ d ++ rest) snap mem = (false, mem))
    ∧ (∀ (snap1 : Snapshot) (mem1 : List (List Nat)) (t : Nat) (snap : Snapshot)
        (mem : List (List Nat)),
      snapshot_wf snap1 mem1 → snap1.regions.length ≠ snap.regions.length →
      sfpm_snapshot_restore (sfpm_snapshot_save snap1 mem1 t) snap mem = (false, mem))
    ∧ (∀ (i : Nat) (snap1 : Snapshot) (mem1 : List (List Nat)) (t : Nat) (snap : Snapshot)
        (mem : List (List Nat)),
      snapshot_wf snap1 mem1 →
      snap.regions.length = snap1.regions.length →
      mem.length = snap1.regions.length →
      (∀ p ∈ snap.regions.zip mem, p.2.length = p.1.size) →
      (∀ j, j < i → (snap.regions.get? j).map MemRegion.size
          = (snap1.regions.get? j).map MemRegion.size) →
      (∀ r1 r, snap1.regions.get? i = some r1 → snap.regions.get? i = some r →
          ¬r1.size = r.size) →
      i < snap1.regions.length →
      (sfpm_snapshot_restore (sfpm_snapshot_save snap1 mem1 t) snap mem).1 = false
      ∧ (sfpm_snapshot_restore (sfpm_snapshot_save snap1 mem1 t) snap mem).2.drop i
          = mem.drop i) := by
  have h32 : (2 : Nat) ^ 32 = 256 ^ 4 := by norm_num
  refine ⟨?_, ?_, ?_, ?_⟩
  · intro m tail snap mem hm hne
    exact sfpm_snapshot_restore_bad_magic m tail snap mem (by rw [← h32]; exact hm) hne
  · intro v ts tot nr d rest snap mem hv hnr hd hv1
    rw [sfpm_snapshot_restore_header v ts tot nr d rest snap mem
      (by rw [← h32]; exact hv) (by rw [← h32]; exact hnr) hd]
    rw [if_pos (show v ≠ SFPM_SNAPSHOT_VERSION from hv1)]
  · intro snap1 mem1 t snap mem hwf hne
    obtain ⟨hcount, hmlen, hm, hb⟩ := hwf
    unfold sfpm_snapshot_save
    rw [sfpm_snapshot_restore_header SFPM_SNAPSHOT_VERSION t (snapshot_total_size snap1)
      snap1.regions.length (pad_description snap1.description)
      (save_region_records (snap1.regions.zip mem1)) snap mem
      (by norm_num [SFPM_SNAPSHOT_VERSION]) (by rw [← h32]; exact hcount)
      (pad_description_length snap1.description)]
    rw [if_neg (by intro h; exact h rfl)]
    rw [if_pos hne]
  · intro i snap1 mem1 t snap mem hwf hcnt hmemlen hmsz hpre hmis hi
    obtain ⟨hcount, hmlen, hm, hb⟩ := hwf
    unfold sfpm_snapshot_save
    rw [sfpm_snapshot_restore_header SFPM_SNAPSHOT_VERSION t (snapshot_total_size snap1)
      snap1.regions.length (pad_description snap1.description)
      (save_region_records (snap1.regions.zip mem1)) snap mem
      (by norm_num [SFPM_SNAPSHOT_VERSION]) (by rw [← h32]; exact hcount)
      (pad_description_length snap1.description)]
    rw [if_neg (by intro h; exact h rfl)]
    rw [if_neg (by omega)]
    exact restore_regions_mismatch i snap1.regions mem1 snap.regions mem
      hmlen hcnt hmemlen hm hmsz hb hpre hmis hi

/-- Witness for C5: tampered magic, tampered version, region-count
mismatch (one region against two) and a second-region size mismatch
(sizes [2, 1] saved, [2, 2] declared), each at concrete inputs. -/
theorem snapshot_restore_rejections_witness :
    sfpm_snapshot_restore (le_bytes 4 0 ++ []) snap_two [[0, 0]] = (false, [[0, 0]])
    ∧ sfpm_snapshot_restore
        (le_bytes 4 SFPM_SNAPSHOT_MAGIC ++ le_bytes 4 2 ++ le_bytes 8 0 ++ le_bytes 8 0
          ++ le_bytes 4 1 ++ List.replicate 256 0 ++ []) snap_two [[0, 0]]
        = (false, [[0, 0]])
    ∧ sfpm_snapshot_restore (sfpm_snapshot_save snap_two [[7, 9]] 0) snap_two_one
        [[0, 0], [4]] = (false, [[0, 0], [4]])
    ∧ ((sfpm_snapshot_restore (sfpm_snapshot_save snap_two_one [[7, 9], [3]] 0) snap_two_two
          [[0, 0], [4, 5]]).1 = false
      ∧ (sfpm_snapshot_restore (sfpm_snapshot_save snap_two_one [[7, 9], [3]] 0) snap_two_two
          [[0, 0], [4, 5]]).2.drop 1 = [[0, 0], [4, 5]].drop 1) := by
  refine ⟨?_, ?_, ?_, ?_⟩
  · exact snapshot_restore_rejections.1 0 [] snap_two [[0, 0]] (by norm_num)
      (by norm_num [SFPM_SNAPSHOT_MAGIC])
  · exact snapshot_restore_rejections.2.1 2 0 0 1 (List.replicate 256 0) [] snap_two [[0, 0]]
      (by norm_num) (by norm_num) (List.length_replicate 256 0) (by norm_num)
  · exact snapshot_restore_rejections.2.2.1 snap_two [[7, 9]] 0 snap_two_one [[0, 0], [4]]
      ⟨by decide, rfl, by decide, by decide⟩ (by decide)
  · refine snapshot_restore_rejections.2.2.2 1 snap_two_one [[7, 9], [3]] 0 snap_two_two
      [[0, 0], [4, 5]] ⟨by decide, rfl, by decide, by decide⟩ rfl rfl (by decide) ?_ ?_
      (by decide)
    · intro j hj
      have hj0 : j = 0 := by omega
      subst hj0
      decide
    · intro r1 r h1 h2
      rw [show snap_two_one.regions.get? 1 = some ⟨1, [109], false⟩ from rfl] at h1
      rw [show snap_two_two.regions.get? 1 = some ⟨2, [109], false⟩ from rfl] at h2
      have e1 := Option.some.inj h1
      have e2 := Option.some.inj h2
      subst e1
      subst e2
      decide
